import Mathlib

/-!
Verification development for the DubaiRTA transit planner.

The JavaScript sources (`find_transit_bfs.js`, `find_next_transit.js` and the
combined variant appended to `find_transit_bfs.js`) are embedded shallowly:

* wall-clock times stay `HH:MM:SS` strings exactly as the scripts keep them,
  with `parseHMS` standing for `timeStr.split(':').map(Number)`;
* great-circle distances (floating point kilometres in the source) become
  rationals, `Infinity` becomes the top element of `WithTop ℚ`;
* the parsed `stop_times.txt` rows become `StRow` records (the scripts split
  each raw CSV line into the same five fields before using them);
* `Array.prototype.sort`, stable in JavaScript, becomes the stable
  `List.insertionSort`;
* the unbounded `while` loops carry their own iteration caps
  (`MAX_ITERATIONS`), which become explicit fuel.
-/

/-- Split a character list at every occurrence of the separator: the model of
the source's `timeStr.split(':')`. -/
def splitOnSep (sep : Char) : List Char → List (List Char)
  | [] => [[]]
  | c :: rest =>
    match splitOnSep sep rest with
    | [] => [[]]
    | g :: gs => if c = sep then [] :: g :: gs else (c :: g) :: gs

/-- Decimal digits to a number; `none` when a character is not a digit (where
JavaScript's `Number(...)` would give `NaN`). -/
def digitsToNat (cs : List Char) : Option ℕ :=
  cs.foldl (fun acc c =>
    match acc with
    | none => none
    | some n => if c.isDigit then some (n * 10 + (c.toNat - 48)) else none) (some 0)

/-- The `[h, m, s]` destructuring of `timeStr.split(':').map(Number)` shared by
`addMinutesToTime`, `compareTime` and `timeDifferenceMinutes`. Unparsable
components come out as `0` (the scripts only ever feed well-formed times). -/
def parseHMS (t : String) : ℕ × ℕ × ℕ :=
  match (splitOnSep ':' t.toList).map (fun g => (digitsToNat g).getD 0) with
  | [h, m, s] => (h, m, s)
  | _ => (0, 0, 0)

/-- `String(n).padStart(2, '0')`. -/
def pad2 (n : ℕ) : String :=
  if n < 10 then "0" ++ toString n else toString n

/-- A rendered `HH:MM:SS` string built from components, as the template string
in `addMinutesToTime` does. -/
def mkTime (h m s : ℕ) : String :=
  pad2 h ++ ":" ++ pad2 m ++ ":" ++ pad2 s

/-- `addMinutesToTime` from `find_transit_bfs.js` (both copies are identical):
adds minutes, wrapping the hour with `% 24`, and re-renders the string. -/
def addMinutesToTime (timeStr : String) (minutes : ℕ) : String :=
  let hms := parseHMS timeStr
  let totalMinutes := hms.1 * 60 + hms.2.1 + minutes
  let newH := totalMinutes / 60 % 24
  let newM := totalMinutes % 60
  pad2 newH ++ ":" ++ pad2 newM ++ ":" ++ pad2 hms.2.2

/-- `compareTime` from the scripts: `-1`, `0` or `1` by total seconds. -/
def compareTime (time1 time2 : String) : ℤ :=
  let p1 := parseHMS time1
  let p2 := parseHMS time2
  let total1 : ℕ := p1.1 * 3600 + p1.2.1 * 60 + p1.2.2
  let total2 : ℕ := p2.1 * 3600 + p2.2.1 * 60 + p2.2.2
  if total1 < total2 then -1 else if total1 > total2 then 1 else 0

/-- `timeDifferenceMinutes` from the scripts: minutes-of-day difference,
seconds ignored. -/
def timeDifferenceMinutes (time1 time2 : String) : ℤ :=
  let p1 := parseHMS time1
  let p2 := parseHMS time2
  ((p2.1 * 60 + p2.2.1 : ℕ) : ℤ) - ((p1.1 * 60 + p1.2.1 : ℕ) : ℤ)

/-- Parsing a rendered time with a zero hour recovers the components; checked
exhaustively over the bounded minute and second ranges. -/
theorem parseHMS_mkTime_zeroH : ∀ b < 60, ∀ c < 60, parseHMS (mkTime 0 b c) = (0, b, c) := by
  decide

/-- C10: for a well-formed `HH:MM:SS` string, `addMinutesToTime` produces the
time with hour `(60*HH + MM + m) / 60 % 24`, minute `(MM + m) % 60` and the
seconds field unchanged; consequently adding the 5-minute transfer buffer to a
time at or after `23:55` wraps past midnight and compares as earlier in the
day. -/
theorem addMinutesToTime_formula_and_wrap (t : String) (mins h m s : ℕ)
    (hp : parseHMS t = (h, m, s)) :
    addMinutesToTime t mins = mkTime ((h * 60 + m + mins) / 60 % 24) ((m + mins) % 60) s
    ∧ (h = 23 → 55 ≤ m → m < 60 → s < 60 → compareTime (addMinutesToTime t 5) t = -1) := by
  constructor
  · show addMinutesToTime t mins = _
    unfold addMinutesToTime mkTime
    rw [hp]
    have hmod : (h * 60 + m + mins) % 60 = (m + mins) % 60 := by
      have : h * 60 + m + mins = m + mins + h * 60 := by ring
      rw [this, Nat.add_mul_mod_self_right]
    simp only [hmod]
  · intro hh hm55 hm60 hs60
    subst hh
    have hform : addMinutesToTime t 5 = mkTime ((23 * 60 + m + 5) / 60 % 24) ((m + 5) % 60) s := by
      unfold addMinutesToTime mkTime
      rw [hp]
      have hmod : (23 * 60 + m + 5) % 60 = (m + 5) % 60 := by
        have : 23 * 60 + m + 5 = m + 5 + 23 * 60 := by ring
        rw [this, Nat.add_mul_mod_self_right]
      simp only [hmod]
    have hdiv : (23 * 60 + m + 5) / 60 % 24 = 0 := by omega
    rw [hform, hdiv]
    have hparse : parseHMS (mkTime 0 ((m + 5) % 60) s) = (0, (m + 5) % 60, s) :=
      parseHMS_mkTime_zeroH _ (Nat.mod_lt _ (by omega)) _ hs60
    unfold compareTime
    rw [hparse, hp]
    have h1 : (0 * 3600 + ((m + 5) % 60) * 60 + s) < 23 * 3600 + m * 60 + s := by
      have : (m + 5) % 60 < 60 := Nat.mod_lt _ (by omega)
      omega
    simp only [h1, if_pos]

/-- Witness for C10 at `23:58:07` plus 10 minutes. -/
theorem addMinutesToTime_formula_and_wrap_witness :
    parseHMS "23:58:07" = (23, 58, 7) ∧
      (addMinutesToTime "23:58:07" 10 = mkTime ((23 * 60 + 58 + 10) / 60 % 24) ((58 + 10) % 60) 7
      ∧ (23 = 23 → 55 ≤ 58 → 58 < 60 → 7 < 60 →
          compareTime (addMinutesToTime "23:58:07" 5) "23:58:07" = -1)) :=
  ⟨by decide, addMinutesToTime_formula_and_wrap "23:58:07" 10 23 58 7 (by decide)⟩

/-- A parsed CSV row: the JavaScript object keyed by header name becomes an
association list built front-first (a later assignment to the same key wins,
as in the object). -/
abbrev Entry := List (String × String)

/-- Reading a field of a parsed row: first match of the front-first list, so
the last assignment wins; an absent key reads as the empty string. -/
def getField (e : Entry) (k : String) : String :=
  ((e.find? (fun p => p.1 = k)).map Prod.snd).getD ""

/-- The `replace(/^"|"$/g, '')` used on headers and field values: one leading
and one trailing double quote are stripped. -/
def stripEdgeQuotes (s : String) : String :=
  let cs := s.toList
  let cs := if cs.head? = some '"' then cs.tail else cs
  let cs := if cs.getLast? = some '"' then cs.dropLast else cs
  cs.asString

/-- The character loop of `parseCSV` over one data line: `"` toggles the
in-quote flag, an unquoted `,` ends the current value, anything else is
appended. `current` holds the pending value reversed. -/
def parseCSVRowAux (current : List Char) (inQuote : Bool) : List Char → List String
  | [] => [current.reverse.asString]
  | c :: rest =>
    if c = '"' then parseCSVRowAux current (!inQuote) rest
    else if c = ',' ∧ inQuote = false then
      current.reverse.asString :: parseCSVRowAux [] false rest
    else parseCSVRowAux (c :: current) inQuote rest

/-- One row object: `headers.forEach((h, idx) => entry[h] = values[idx] ? strip : '')`.
An index past the end of `values` reads as the empty string, exactly as the
undefined-value branch does. -/
def mkEntry (headers values : List String) : Entry :=
  headers.enum.foldl (fun acc p => (p.2, stripEdgeQuotes (values.getD p.1 "")) :: acc) []

/-- `parseCSV` from the scripts: trim, split into lines, read the header row
with a plain comma split, then run the quote-aware machine on every other
non-empty line. -/
def parseCSV (content : String) : List Entry :=
  match (splitOnSep '\n' content.trim.toList).map List.asString with
  | [] => []
  | headerLine :: rest =>
    let headers := (splitOnSep ',' headerLine.toList).map
      (fun g => stripEdgeQuotes g.asString.trim)
    rest.filterMap (fun l =>
      let line := l.trim
      if line = "" then none
      else some (mkEntry headers (parseCSVRowAux [] false line.toList)))

/-- `loadFile`: an absent file is logged (`File not found`) and yields the
empty table; a present file is parsed. The store stands for the `data/`
directory, a list of `(file name, raw content)`. -/
def loadFile (store : List (String × String)) (filename : String) : List Entry :=
  match store.find? (fun f => f.1 = filename) with
  | none => []
  | some f => parseCSV f.2

/-- The calendar filter of `preloadTransitData`: weekday flag set and the
query date inside the inclusive `start_date`/`end_date` range. A date field
that does not parse behaves as `NaN` in the source: every comparison is
false. -/
def calendarActive (dayName : String) (todayDate : ℕ) (c : Entry) : Bool :=
  match digitsToNat (getField c "start_date").toList,
        digitsToNat (getField c "end_date").toList with
  | some startDate, some endDate =>
    (getField c dayName == "1") && decide (startDate ≤ todayDate)
      && decide (todayDate ≤ endDate)
  | _, _ => false

/-- Step 2 of `preloadTransitData`: the active `service_id`s. -/
def activeServiceIds (calendar : List Entry) (dayName : String) (todayDate : ℕ) :
    List String :=
  (calendar.filter (calendarActive dayName todayDate)).map
    (fun c => getField c "service_id")

/-- Step 1 of `preloadTransitData`: the `route_id`s passing the optional
`route_type` filter (`null` keeps every route). -/
def targetRouteIds (routes : List Entry) (routeType : Option String) : List String :=
  (routes.filter (fun r =>
    match routeType with
    | none => true
    | some rt => getField r "route_type" == rt)).map (fun r => getField r "route_id")

/-- Step 3 of `preloadTransitData`: trips whose route passes the filter and
whose service is active. -/
def validTripsOf (routes calendar trips : List Entry) (routeType : Option String)
    (dayName : String) (todayDate : ℕ) : List Entry :=
  let rids := targetRouteIds routes routeType
  let sids := activeServiceIds calendar dayName todayDate
  trips.filter (fun t =>
    rids.contains (getField t "route_id") && sids.contains (getField t "service_id"))

/-- C8 counterexample: with a data directory holding `routes.txt` but no
`stops.txt`, `loadFile` silently yields the empty `stops` table — there is no
`FeedError::Missing` and the process goes on, contrary to the claim. -/
theorem loadFile_missing_stops_empty :
    loadFile [("routes.txt", "route_id\nR1")] "stops.txt" = [] := rfl

/-- C8 as amended: a missing required GTFS table is not fatal — `loadFile`
returns the empty table for it, and the planner proceeds with empty data: in
particular, when `calendar.txt` is the absent table, the valid-trip set of the
service-day filter is empty, which later surfaces as a soft "no journey". -/
theorem loadFile_missing_empty_and_degrades (store : List (String × String))
    (dayName tbl : String) (todayDate : ℕ) (routeType : Option String)
    (habsent : store.find? (fun f => f.1 = tbl) = none) :
    loadFile store tbl = [] ∧
    (tbl = "calendar.txt" →
      validTripsOf (loadFile store "routes.txt") (loadFile store "calendar.txt")
        (loadFile store "trips.txt") routeType dayName todayDate = []) := by
  constructor
  · unfold loadFile
    rw [habsent]
  · intro htbl
    subst htbl
    have hcal : loadFile store "calendar.txt" = [] := by
      unfold loadFile
      rw [habsent]
    rw [hcal]
    unfold validTripsOf
    rw [List.filter_eq_nil_iff]
    intro t _
    simp [activeServiceIds]

/-- Witness for C8's amended theorem: a store holding only `trips.txt`. -/
theorem loadFile_missing_empty_and_degrades_witness :
    ([("trips.txt", "trip_id,route_id,service_id\nT1,R1,S1")].find?
        (fun f => f.1 = "calendar.txt") = none) ∧
    (loadFile [("trips.txt", "trip_id,route_id,service_id\nT1,R1,S1")] "calendar.txt" = [] ∧
    ("calendar.txt" = "calendar.txt" →
      validTripsOf
        (loadFile [("trips.txt", "trip_id,route_id,service_id\nT1,R1,S1")] "routes.txt")
        (loadFile [("trips.txt", "trip_id,route_id,service_id\nT1,R1,S1")] "calendar.txt")
        (loadFile [("trips.txt", "trip_id,route_id,service_id\nT1,R1,S1")] "trips.txt")
        none "monday" 20251011 = [])) :=
  ⟨by decide, loadFile_missing_empty_and_degrades _ "monday" "calendar.txt" 20251011 none
    (by decide)⟩

/-- A `stops.txt` row as the geo queries read it. -/
structure GStop where
  stop_id : String
  stop_lat : String
  stop_lon : String
deriving DecidableEq

/-- The filter-and-tag step of `findNearestStops`: keep stops whose
coordinate fields are non-empty (JavaScript truthiness of the raw strings) and
pair each with its distance. The floating-point Haversine
`calculateDistance` (Earth radius 6371 km) is abstracted as the `dist`
parameter; every ordering theorem below holds for an arbitrary distance
function, hence for the Haversine one. -/
def stopsWithDistance (dist : GStop → ℚ) (stops : List GStop) : List (GStop × ℚ) :=
  (stops.filter (fun s => s.stop_lat != "" && s.stop_lon != "")).map (fun s => (s, dist s))

/-- The comparator `(a, b) => a.distance - b.distance` of the JavaScript sort:
a stable sort with respect to distance `≤`. -/
def distLe (a b : GStop × ℚ) : Prop := a.2 ≤ b.2

instance : DecidableRel distLe := fun a b => inferInstanceAs (Decidable (a.2 ≤ b.2))

instance : IsTotal (GStop × ℚ) distLe := ⟨fun a b => le_total a.2 b.2⟩

instance : IsTrans (GStop × ℚ) distLe := ⟨fun _ _ _ h1 h2 => le_trans h1 h2⟩

/-- The sorted list before `slice`: `Array.prototype.sort` is stable, so it is
the stable insertion sort by distance. -/
def sortedStopsWithDistance (dist : GStop → ℚ) (stops : List GStop) : List (GStop × ℚ) :=
  (stopsWithDistance dist stops).insertionSort distLe

/-- `findNearestStops` from the scripts: filter, tag, stable sort by distance,
`slice(0, maxResults)`. -/
def findNearestStops (dist : GStop → ℚ) (stops : List GStop) (maxResults : ℕ) :
    List (GStop × ℚ) :=
  (sortedStopsWithDistance dist stops).take maxResults

/-- C7 counterexample: two stops at identical coordinates (so every distance
function — in particular the Haversine distance from any reference point —
gives them exactly equal distances), stored in the file with the larger
`stop_id` first. The query returns them in file order: the stop with the
larger `stop_id` `"B"` comes before `"A"`, refuting the claimed ascending
`stop_id` tie-break. -/
theorem findNearestStops_tie_keeps_file_order :
    findNearestStops (fun _ => 1)
        [⟨"B", "25.0", "55.0"⟩, ⟨"A", "25.0", "55.0"⟩] 10
      = [(⟨"B", "25.0", "55.0"⟩, 1), (⟨"A", "25.0", "55.0"⟩, 1)]
    ∧ compare "A" "B" = Ordering.lt := by
  constructor
  · rfl
  · decide

/-- C7 as amended: `findNearestStops` returns at most `maxResults` stops, all
of them with coordinate fields, in non-decreasing distance order; two stops
with exactly equal distance keep their relative order from the stops file
(stable sort), not ascending `stop_id` order. -/
theorem findNearestStops_sorted_bounded_stable (dist : GStop → ℚ)
    (stops : List GStop) (maxResults : ℕ) :
    (findNearestStops dist stops maxResults).length ≤ maxResults
    ∧ (∀ p ∈ findNearestStops dist stops maxResults,
        p.1.stop_lat ≠ "" ∧ p.1.stop_lon ≠ "")
    ∧ List.Sorted distLe (findNearestStops dist stops maxResults)
    ∧ (∀ a b : GStop × ℚ, List.Sublist [a, b] (stopsWithDistance dist stops) → a.2 = b.2 →
        List.Sublist [a, b] (sortedStopsWithDistance dist stops)) := by
  refine ⟨?_, ?_, ?_, ?_⟩
  · simp [findNearestStops]
  · intro p hp
    have hmem : p ∈ sortedStopsWithDistance dist stops :=
      List.take_subset _ _ hp
    have hmem2 : p ∈ stopsWithDistance dist stops := by
      have := (List.mem_insertionSort distLe).mp hmem
      exact this
    obtain ⟨s, hs, rfl⟩ := List.mem_map.mp hmem2
    have hprop := List.of_mem_filter hs
    constructor
    · simpa using (Bool.and_elim_left hprop)
    · simpa using (Bool.and_elim_right hprop)
  · exact (List.sorted_insertionSort distLe _).sublist (List.take_sublist _ _)
  · intro a b hsub heq
    exact List.pair_sublist_insertionSort (le_of_eq heq) hsub

/-- A parsed `stop_times.txt` row, after the scripts split the raw line into
the five fields they read. -/
structure StRow where
  trip_id : String
  stop_id : String
  seq : ℕ
  arr : String
  dep : String
deriving DecidableEq

/-- A `trips.txt` row as `tripRouteMap` keeps it. -/
structure TripInfo where
  trip_id : String
  route_id : String
  trip_headsign : String
deriving DecidableEq

/-- The output of `preloadTransitData` as the searches consume it. -/
structure Preloaded where
  validTripIds : List String
  tripRouteMap : List TripInfo
  stopTimeRows : List StRow
deriving DecidableEq

/-- `tripRouteMap[tId]`: the last stored trip wins, as assignment to a
JavaScript object key does. The default is never reached on the rows the
scripts look up (they are filtered by `validTripIds` first). -/
def tripInfoOf (pd : Preloaded) (tId : String) : TripInfo :=
  (pd.tripRouteMap.reverse.find? (fun t => t.trip_id = tId)).getD ⟨tId, "", ""⟩

/-- Keys of an association in first-occurrence order: the enumeration order of
a JavaScript object built by pushes, for keys that are not integer-like
strings. -/
def firstKeys : List String → List String
  | [] => []
  | k :: rest => k :: (firstKeys rest).filter (fun x => x ≠ k)

/-- Grouping key-value pairs the way `obj[k].push(v)` accumulation does: keys
in first-occurrence order, each key's values in push order. (JavaScript
enumerates integer-like keys numerically before the rest; the properties
proved below do not depend on the key enumeration order, and the concrete
inputs use non-integer-like ids, for which insertion order is the object's
entry order.) -/
def groupByKey {β : Type} (pairs : List (String × β)) : List (String × List β) :=
  (firstKeys (pairs.map Prod.fst)).map
    (fun k => (k, (pairs.filter (fun p => p.1 = k)).map Prod.snd))

/-- The `tripStopMap` both `getDirectConnections` copies rebuild: rows of
valid trips grouped by `trip_id`. -/
def tripStopMap (pd : Preloaded) : List (String × List StRow) :=
  groupByKey ((pd.stopTimeRows.filter
    (fun r => pd.validTripIds.contains r.trip_id)).map (fun r => (r.trip_id, r)))

/-- The comparator `(a, b) => a.seq - b.seq`: a stable sort by
`stop_sequence`. -/
def seqLe (a b : StRow) : Prop := a.seq ≤ b.seq

instance : DecidableRel seqLe := fun a b => inferInstanceAs (Decidable (a.seq ≤ b.seq))

instance : IsTotal StRow seqLe := ⟨fun a b => Nat.le_total a.seq b.seq⟩

instance : IsTrans StRow seqLe := ⟨fun _ _ _ h1 h2 => Nat.le_trans h1 h2⟩

/-- `stops.findIndex(s => s.stop_id === stopId)` followed by taking the rows
after that index: the first matching row and everything behind it. -/
def findFrom (stopId : String) : List StRow → Option (StRow × List StRow)
  | [] => none
  | r :: rest => if r.stop_id = stopId then some (r, rest) else findFrom stopId rest

/-- An onward connection record. -/
structure Conn where
  stop_id : String
  arrival_time : String
  departure_time : String
  trip_id : String
  route_id : String
  headsign : String
deriving DecidableEq

/-- The connection record pushed for destination row `d` on trip `tId` whose
source row is `srow`. -/
def mkConnOf (pd : Preloaded) (tId : String) (srow d : StRow) : Conn :=
  { stop_id := d.stop_id, arrival_time := d.arr, departure_time := srow.dep,
    trip_id := tId, route_id := (tripInfoOf pd tId).route_id,
    headsign := (tripInfoOf pd tId).trip_headsign }

/-- `getDirectConnections` (identical in both scripts): per valid trip, sort
its rows by sequence, locate the first row at the queried stop, and when that
row departs strictly after `afterTime`, emit one connection per later row. -/
def getDirectConnections (stopId afterTime : String) (pd : Preloaded) : List Conn :=
  (tripStopMap pd).flatMap (fun g =>
    let sorted := g.2.insertionSort seqLe
    match findFrom stopId sorted with
    | none => []
    | some (stopInfo, after) =>
      if compareTime stopInfo.dep afterTime ≤ 0 then []
      else after.map (fun d => mkConnOf pd g.1 stopInfo d))

/-- The Connection Expander as the specification words it: for each valid
trip, one entry for every row at a strictly greater `stop_sequence` than the
queried stop's row, provided the departure from that stop is strictly later
than `afterTime`. -/
def connectionsSpec (stopId afterTime : String) (pd : Preloaded) : List Conn :=
  (tripStopMap pd).flatMap (fun g =>
    let sorted := g.2.insertionSort seqLe
    match sorted.find? (fun r => r.stop_id = stopId) with
    | none => []
    | some srow =>
      if 0 < compareTime srow.dep afterTime then
        (sorted.filter (fun r => srow.seq < r.seq)).map (fun d => mkConnOf pd g.1 srow d)
      else [])

theorem flatMap_congr_mem {α β : Type} {f f' : α → List β} :
    ∀ {L : List α}, (∀ g ∈ L, f g = f' g) → L.flatMap f = L.flatMap f'
  | [], _ => rfl
  | g :: L, h => by
    simp only [List.flatMap_cons]
    rw [h g (List.mem_cons_self g L), flatMap_congr_mem (fun x hx => h x (List.mem_cons_of_mem g hx))]

theorem findFrom_eq_none {s : String} :
    ∀ {l : List StRow}, findFrom s l = none ↔ l.find? (fun r => r.stop_id = s) = none := by
  intro l
  induction l with
  | nil => simp [findFrom]
  | cons r rest ih =>
    by_cases h : r.stop_id = s
    · simp [findFrom, List.find?_cons, h]
    · simp [findFrom, List.find?_cons, h, ih]

theorem findFrom_eq_some {s : String} :
    ∀ {l : List StRow} {x : StRow} {aft : List StRow}, findFrom s l = some (x, aft) →
      l.find? (fun r => r.stop_id = s) = some x ∧ ∃ pre, l = pre ++ x :: aft := by
  intro l
  induction l with
  | nil => intro x aft h; simp [findFrom] at h
  | cons r rest ih =>
    intro x aft h
    by_cases hr : r.stop_id = s
    · rw [findFrom, if_pos hr] at h
      obtain ⟨rfl, rfl⟩ : r = x ∧ rest = aft := by
        constructor <;> { injection h with h'; cases h'; rfl }
      exact ⟨by simp [List.find?_cons, hr], ⟨[], rfl⟩⟩
    · rw [findFrom, if_neg hr] at h
      obtain ⟨hfind, pre, rfl⟩ := ih h
      exact ⟨by simp [List.find?_cons, hr, hfind], ⟨r :: pre, rfl⟩⟩

theorem after_eq_filter_gt_seq {pre aft : List StRow} {x : StRow}
    (hsorted : (pre ++ x :: aft).Pairwise seqLe)
    (hne : (pre ++ x :: aft).Pairwise (fun a b => a.seq ≠ b.seq)) :
    aft = (pre ++ x :: aft).filter (fun r => decide (x.seq < r.seq)) := by
  rw [List.filter_append, List.filter_cons]
  have hpre : pre.filter (fun r => decide (x.seq < r.seq)) = [] := by
    rw [List.filter_eq_nil_iff]
    intro y hy
    have hle : seqLe y x :=
      (List.pairwise_append.mp hsorted).2.2 y hy x (List.mem_cons_self x aft)
    simp only [decide_eq_true_eq]
    exact not_lt.mpr hle
  have hx : ¬ x.seq < x.seq := lt_irrefl _
  have haft : aft.filter (fun r => decide (x.seq < r.seq)) = aft := by
    rw [List.filter_eq_self]
    intro y hy
    have hle : seqLe x y :=
      List.rel_of_pairwise_cons (List.pairwise_append.mp hsorted).2.1 hy
    have hney : x.seq ≠ y.seq :=
      List.rel_of_pairwise_cons (List.pairwise_append.mp hne).2.1 hy
    simp only [decide_eq_true_eq]
    exact lt_of_le_of_ne hle hney
  simp [hpre, hx, haft]

/-- C9: the Connection Expander agrees with its specification — assuming each
trip's rows carry pairwise-distinct `stop_sequence` values (a GTFS invariant
the spec states), `getDirectConnections` returns exactly one entry per later
row of each valid trip through the queried stop departing strictly after the
given time, with that row's arrival time and the departure time from the
queried stop. It is a total function: when no such connection exists the
result is the empty list, never an error. -/
theorem getDirectConnections_eq_spec (stopId afterTime : String) (pd : Preloaded)
    (hseq : ∀ g ∈ tripStopMap pd, g.2.Pairwise (fun a b => a.seq ≠ b.seq)) :
    getDirectConnections stopId afterTime pd = connectionsSpec stopId afterTime pd := by
  unfold getDirectConnections connectionsSpec
  apply flatMap_congr_mem
  intro g hg
  have hsorted : (g.2.insertionSort seqLe).Pairwise seqLe :=
    List.sorted_insertionSort seqLe g.2
  have hne : (g.2.insertionSort seqLe).Pairwise (fun a b => a.seq ≠ b.seq) :=
    ((List.perm_insertionSort seqLe g.2).pairwise_iff (fun h => h.symm)).mpr (hseq g hg)
  cases hf : findFrom stopId (g.2.insertionSort seqLe) with
  | none =>
    have : (g.2.insertionSort seqLe).find? (fun r => r.stop_id = stopId) = none :=
      findFrom_eq_none.mp hf
    simp only [hf, this]
  | some p =>
    obtain ⟨x, aft⟩ := p
    obtain ⟨hfind, pre, hdecomp⟩ := findFrom_eq_some hf
    simp only [hf, hfind]
    by_cases hc : compareTime x.dep afterTime ≤ 0
    · rw [if_pos hc, if_neg (by omega)]
    · rw [if_neg hc, if_pos (by omega)]
      have haft : aft = (g.2.insertionSort seqLe).filter (fun r => decide (x.seq < r.seq)) := by
        rw [hdecomp] at hsorted hne ⊢
        exact after_eq_filter_gt_seq hsorted hne
      rw [← haft]

/-- Witness for C9 on a concrete two-trip feed. -/
theorem getDirectConnections_eq_spec_witness :
    (∀ g ∈ tripStopMap ⟨["T1", "T2"],
        [⟨"T1", "R1", "H1"⟩, ⟨"T2", "R2", "H2"⟩],
        [⟨"T1", "S1", 1, "08:00:00", "08:00:00"⟩, ⟨"T1", "S2", 2, "08:10:00", "08:10:30"⟩,
         ⟨"T1", "S3", 3, "08:20:00", "08:20:00"⟩, ⟨"T2", "S2", 1, "08:20:00", "08:20:00"⟩,
         ⟨"T2", "S3", 2, "08:30:00", "08:30:00"⟩]⟩,
      g.2.Pairwise (fun a b => a.seq ≠ b.seq)) ∧
    getDirectConnections "S2" "08:05:00" ⟨["T1", "T2"],
        [⟨"T1", "R1", "H1"⟩, ⟨"T2", "R2", "H2"⟩],
        [⟨"T1", "S1", 1, "08:00:00", "08:00:00"⟩, ⟨"T1", "S2", 2, "08:10:00", "08:10:30"⟩,
         ⟨"T1", "S3", 3, "08:20:00", "08:20:00"⟩, ⟨"T2", "S2", 1, "08:20:00", "08:20:00"⟩,
         ⟨"T2", "S3", 2, "08:30:00", "08:30:00"⟩]⟩
      = connectionsSpec "S2" "08:05:00" ⟨["T1", "T2"],
        [⟨"T1", "R1", "H1"⟩, ⟨"T2", "R2", "H2"⟩],
        [⟨"T1", "S1", 1, "08:00:00", "08:00:00"⟩, ⟨"T1", "S2", 2, "08:10:00", "08:10:30"⟩,
         ⟨"T1", "S3", 3, "08:20:00", "08:20:00"⟩, ⟨"T2", "S2", 1, "08:20:00", "08:20:00"⟩,
         ⟨"T2", "S3", 2, "08:30:00", "08:30:00"⟩]⟩ :=
  ⟨by decide, getDirectConnections_eq_spec "S2" "08:05:00" _ (by decide)⟩

/-- A journey leg. `from`/`to` are Lean keywords, so the fields are
`fromStop`/`toStop`. -/
structure SLeg where
  fromStop : String
  toStop : String
  departure : String
  arrival : String
  trip_id : String
  route_id : String
  headsign : String
deriving DecidableEq

/-- A frontier entry of `bfsSearch`. -/
structure SState where
  stop : String
  time : String
  path : List SLeg
  numTransfers : ℕ
  distanceToTarget : WithTop ℚ
deriving DecidableEq

/-- A found route, as `bfsSearch` returns it. -/
structure RouteResult where
  path : List SLeg
  finalStop : String
  finalTime : String
  numTransfers : ℕ
  distanceToDestination : WithTop ℚ
deriving DecidableEq

/-- A target-stop entry of `targetStopsList`: id plus distance (km) to the
geocoded destination. -/
structure CandStop where
  stop_id : String
  distance : ℚ
deriving DecidableEq

/-- `stopDistanceMap`: built by successive `Map.set`, so the last write for a
key wins; consing front-first and reading the first match models that. -/
def stopDistanceMapOf (targetStopsList : List CandStop) : List (String × ℚ) :=
  targetStopsList.foldl (fun m s => (s.stop_id, s.distance) :: m) []

/-- `getMinDistanceToTarget`: the mapped distance, `Infinity` when the stop is
not a target. -/
def getMinDistanceToTarget (dmap : List (String × ℚ)) (stopId : String) : WithTop ℚ :=
  match dmap.find? (fun p => p.1 = stopId) with
  | some p => (p.2 : WithTop ℚ)
  | none => ⊤

/-- The `< 0.35` km "good enough" threshold. -/
def closeEnough : ℚ := mkRat 35 100

/-- The per-query context of `bfsSearch`. -/
structure BfsCtx where
  targetStops : List String
  dmap : List (String × ℚ)
  maxTransfers : ℕ
  pd : Preloaded
deriving DecidableEq

/-- The mutable state of the `bfsSearch` loop in `find_transit_bfs.js`. -/
structure BfsSt where
  queue : List SState
  visited : List (String × ℕ)
  bestRoute : Option RouteResult
  bestDistance : WithTop ℚ
deriving DecidableEq

/-- One loop iteration either returns from the whole search or continues with
a new state. -/
inductive StepRes where
  | ret : Option RouteResult → StepRes
  | cont : BfsSt → StepRes
deriving DecidableEq

/-- The leg object pushed for a connection taken from `current`. -/
def legOf (current : SState) (conn : Conn) : SLeg :=
  ⟨current.stop, conn.stop_id, conn.departure_time, conn.arrival_time,
   conn.trip_id, conn.route_id, conn.headsign⟩

/-- The transfer test: the path is non-empty and the connection differs from
the last leg in `route_id` or `trip_id`. -/
def isTransferConn (path : List SLeg) (conn : Conn) : Bool :=
  match path.getLast? with
  | none => false
  | some last => decide (last.route_id ≠ conn.route_id ∨ last.trip_id ≠ conn.trip_id)

/-- `bestRoute && bestRoute.numTransfers === 0`. -/
def bestIsDirect (best : Option RouteResult) : Bool :=
  match best with
  | some b => b.numTransfers == 0
  | none => false

/-- The ordered insertion of the first `bfsSearch` variant
(`find_transit_bfs.js` lines 561–576): insert before the first queued item
that the new state beats under (closer distance, then fewer transfers). -/
def insertPrio1 (x : SState) : List SState → List SState
  | [] => [x]
  | item :: rest =>
    if x.distanceToTarget < item.distanceToTarget
        ∨ (x.distanceToTarget = item.distanceToTarget
            ∧ x.numTransfers < item.numTransfers) then
      x :: item :: rest
    else item :: insertPrio1 x rest

/-- The `for (const conn of connections)` loop of the first `bfsSearch`
variant: either an early `return bestRoute` (`Sum.inl`) or the final queue,
best route and best distance (`Sum.inr`). -/
def connLoop1 (ctx : BfsCtx) (current : SState) (nextAvail : String) :
    List Conn → List SState → Option RouteResult → WithTop ℚ →
      Option RouteResult ⊕ (List SState × Option RouteResult × WithTop ℚ)
  | [], q, best, bd => Sum.inr (q, best, bd)
  | conn :: rest, q, best, bd =>
    if compareTime conn.departure_time nextAvail < 0 then
      connLoop1 ctx current nextAvail rest q best bd
    else if conn.stop_id ∈ ctx.targetStops then
      let newLeg := legOf current conn
      let isTr := isTransferConn current.path conn
      let finalNum := if isTr = true then current.numTransfers + 1 else current.numTransfers
      let d := getMinDistanceToTarget ctx.dmap conn.stop_id
      let best' := if d < bd then
          some ⟨current.path ++ [newLeg], conn.stop_id, conn.arrival_time, finalNum, d⟩
        else best
      let bd' := if d < bd then d else bd
      if d < ((closeEnough : ℚ) : WithTop ℚ) then Sum.inl best'
      else connLoop1 ctx current nextAvail rest q best' bd'
    else if bestIsDirect best = true then
      connLoop1 ctx current nextAvail rest q best bd
    else
      let isTr := isTransferConn current.path conn
      let newNum := if isTr = true then current.numTransfers + 1 else current.numTransfers
      if ctx.maxTransfers < newNum then
        connLoop1 ctx current nextAvail rest q best bd
      else
        let newLeg := legOf current conn
        let dt := getMinDistanceToTarget ctx.dmap conn.stop_id
        connLoop1 ctx current nextAvail rest
          (insertPrio1 ⟨conn.stop_id, conn.arrival_time, current.path ++ [newLeg], newNum, dt⟩ q)
          best bd

/-- `nextAvailableTime`: the transfer buffer is added only when a leg was
already taken. -/
def nextAvailOf (current : SState) : String :=
  if current.path ≠ [] then addMinutesToTime current.time 5 else current.time

/-- The body of the first `bfsSearch` variant's `while` loop, applied to the
state just shifted off the queue. -/
def bfsBody1 (ctx : BfsCtx) (current : SState) (st : BfsSt) : StepRes :=
  if current.stop ∈ ctx.targetStops then
    let d := getMinDistanceToTarget ctx.dmap current.stop
    let best' := if d < st.bestDistance then
        some ⟨current.path, current.stop, current.time, current.numTransfers, d⟩
      else st.bestRoute
    let bd' := if d < st.bestDistance then d else st.bestDistance
    if d < ((closeEnough : ℚ) : WithTop ℚ) then .ret best'
    else .cont ⟨st.queue, st.visited, best', bd'⟩
  else if bestIsDirect st.bestRoute = true ∧ current.path ≠ [] then .cont st
  else if ctx.maxTransfers < current.numTransfers then .cont st
  else if st.bestRoute.isSome = true ∧ st.bestDistance * 2 < current.distanceToTarget then .cont st
  else if (current.stop, current.numTransfers) ∈ st.visited then .cont st
  else
    let visited' := st.visited ++ [(current.stop, current.numTransfers)]
    let conns := getDirectConnections current.stop current.time ctx.pd
    let nextAvail := nextAvailOf current
    match connLoop1 ctx current nextAvail conns st.queue st.bestRoute st.bestDistance with
    | Sum.inl r => .ret r
    | Sum.inr (q, best, bd) => .cont ⟨q, visited', best, bd⟩

/-- The `while (queue.length > 0 && iterations < MAX_ITERATIONS)` loop of the
first variant, with the iteration cap as fuel (`MAX_ITERATIONS = 20000`). -/
def bfsLoop1 (ctx : BfsCtx) : ℕ → BfsSt → Option RouteResult
  | 0, st => st.bestRoute
  | fuel + 1, st =>
    match st.queue with
    | [] => st.bestRoute
    | current :: rest =>
      match bfsBody1 ctx current ⟨rest, st.visited, st.bestRoute, st.bestDistance⟩ with
      | .ret r => r
      | .cont st' => bfsLoop1 ctx fuel st'

/-- `bfsSearch` from `find_transit_bfs.js` (the first variant): immediate
result when the start stop is already a target, otherwise the prioritized
loop. -/
def bfsSearch1 (startStop : String) (targetStops : List String)
    (targetStopsList : List CandStop) (startTime : String) (maxTransfers : ℕ)
    (pd : Preloaded) : Option RouteResult :=
  let dmap := stopDistanceMapOf targetStopsList
  if startStop ∈ targetStops then
    some ⟨[], startStop, startTime, 0, getMinDistanceToTarget dmap startStop⟩
  else
    bfsLoop1 ⟨targetStops, dmap, maxTransfers, pd⟩ 20000
      ⟨[⟨startStop, startTime, [], 0, getMinDistanceToTarget dmap startStop⟩], [], none, ⊤⟩

/-- C3 counterexample: a popped state whose stop is a target, with
`transfers_used = 0` and distance `1 ≥ 0.35` km. The loop body records the
candidate and continues (`.cont`), it does not return — so "return immediately
iff `transfers_used == 0` or distance < 0.35" fails on its first disjunct. -/
theorem bfsBody1_zero_transfers_no_early_return :
    bfsBody1 ⟨["X"], [("X", 1)], 2, ⟨[], [], []⟩⟩
        ⟨"X", "08:00:00", [], 0, ((1 : ℚ) : WithTop ℚ)⟩ ⟨[], [], none, ⊤⟩
      = .cont ⟨[], [], some ⟨[], "X", "08:00:00", 0, ((1 : ℚ) : WithTop ℚ)⟩,
          ((1 : ℚ) : WithTop ℚ)⟩
    ∧ (⟨"X", "08:00:00", [], 0, ((1 : ℚ) : WithTop ℚ)⟩ : SState).numTransfers = 0
    ∧ ¬ (1 : ℚ) < closeEnough := by
  refine ⟨by decide, rfl, by decide⟩

/-- Concrete query context for the C3 witness: single target stop "X", 1 km
from the destination, max 2 transfers, empty feed. -/
def ctxC3 : BfsCtx := ⟨["X"], [("X", 1)], 2, ⟨[], [], []⟩⟩

/-- The popped state of the C3 witness: at target "X" with no transfers. -/
def curC3 : SState := ⟨"X", "08:00:00", [], 0, ((1 : ℚ) : WithTop ℚ)⟩

/-- The loop state of the C3 witness: empty queue, nothing visited, no best
route yet. -/
def stC3 : BfsSt := ⟨[], [], none, ⊤⟩

/-- C3 as amended, covering both target branches of the first `bfsSearch`
variant. Popped branch: when the shifted state's stop is in the target set,
the body returns immediately if and only if that stop's distance to the
destination is strictly below 0.35 km, and otherwise records the state as the
new best candidate exactly when it is strictly closer than the best so far
and continues. Reached branch: when the connection loop meets a connection
whose stop is in the target set (and whose departure is not before the
transfer-adjusted time), it records the completed journey as the new best
exactly when strictly closer, returns that best immediately if and only if
the distance is strictly below 0.35 km, and otherwise continues with the
remaining connections — in both branches `transfers_used` never affects the
return decision. -/
theorem bfsBody1_target_ret_iff_close (ctx : BfsCtx) (current : SState) (st : BfsSt)
    (htgt : current.stop ∈ ctx.targetStops) :
    ((∃ r, bfsBody1 ctx current st = .ret r) ↔
      getMinDistanceToTarget ctx.dmap current.stop < ((closeEnough : ℚ) : WithTop ℚ))
    ∧ (¬ getMinDistanceToTarget ctx.dmap current.stop < ((closeEnough : ℚ) : WithTop ℚ) →
        bfsBody1 ctx current st = .cont ⟨st.queue, st.visited,
          (if getMinDistanceToTarget ctx.dmap current.stop < st.bestDistance then
            some ⟨current.path, current.stop, current.time, current.numTransfers,
              getMinDistanceToTarget ctx.dmap current.stop⟩
          else st.bestRoute),
          (if getMinDistanceToTarget ctx.dmap current.stop < st.bestDistance then
            getMinDistanceToTarget ctx.dmap current.stop
          else st.bestDistance)⟩)
    ∧ (∀ (conn : Conn) (rest : List Conn) (q : List SState)
          (best : Option RouteResult) (bd : WithTop ℚ),
        ¬ compareTime conn.departure_time (nextAvailOf current) < 0 →
        conn.stop_id ∈ ctx.targetStops →
        connLoop1 ctx current (nextAvailOf current) (conn :: rest) q best bd
          = if getMinDistanceToTarget ctx.dmap conn.stop_id
                < ((closeEnough : ℚ) : WithTop ℚ) then
              Sum.inl (if getMinDistanceToTarget ctx.dmap conn.stop_id < bd then
                  some ⟨current.path ++ [legOf current conn], conn.stop_id,
                    conn.arrival_time,
                    (if isTransferConn current.path conn = true then
                      current.numTransfers + 1 else current.numTransfers),
                    getMinDistanceToTarget ctx.dmap conn.stop_id⟩
                else best)
            else
              connLoop1 ctx current (nextAvailOf current) rest q
                (if getMinDistanceToTarget ctx.dmap conn.stop_id < bd then
                  some ⟨current.path ++ [legOf current conn], conn.stop_id,
                    conn.arrival_time,
                    (if isTransferConn current.path conn = true then
                      current.numTransfers + 1 else current.numTransfers),
                    getMinDistanceToTarget ctx.dmap conn.stop_id⟩
                else best)
                (if getMinDistanceToTarget ctx.dmap conn.stop_id < bd then
                  getMinDistanceToTarget ctx.dmap conn.stop_id else bd)) := by
  have hbody : bfsBody1 ctx current st =
      (if getMinDistanceToTarget ctx.dmap current.stop < ((closeEnough : ℚ) : WithTop ℚ) then
        .ret (if getMinDistanceToTarget ctx.dmap current.stop < st.bestDistance then
            some ⟨current.path, current.stop, current.time, current.numTransfers,
              getMinDistanceToTarget ctx.dmap current.stop⟩
          else st.bestRoute)
      else .cont ⟨st.queue, st.visited,
          (if getMinDistanceToTarget ctx.dmap current.stop < st.bestDistance then
            some ⟨current.path, current.stop, current.time, current.numTransfers,
              getMinDistanceToTarget ctx.dmap current.stop⟩
          else st.bestRoute),
          (if getMinDistanceToTarget ctx.dmap current.stop < st.bestDistance then
            getMinDistanceToTarget ctx.dmap current.stop
          else st.bestDistance)⟩) := by
    unfold bfsBody1
    rw [if_pos htgt]
  refine ⟨?_, ?_, ?_⟩
  · by_cases hd : getMinDistanceToTarget ctx.dmap current.stop < ((closeEnough : ℚ) : WithTop ℚ)
    · rw [if_pos hd] at hbody
      exact ⟨fun _ => hd, fun _ => ⟨_, hbody⟩⟩
    · rw [if_neg hd] at hbody
      refine ⟨?_, fun h => absurd h hd⟩
      rintro ⟨r, hr⟩
      rw [hbody] at hr
      cases hr
  · intro hd
    rw [if_neg hd] at hbody
    exact hbody
  · intro conn rest q best bd hna htc
    simp only [connLoop1]
    rw [if_neg hna, if_pos htc]

/-- Witness for C3's amended theorem at a concrete target state 1 km out,
exercising the popped-state clauses and the reached-connection clause. -/
theorem bfsBody1_target_ret_iff_close_witness :
    curC3.stop ∈ ctxC3.targetStops ∧
    (((∃ r, bfsBody1 ctxC3 curC3 stC3 = .ret r) ↔
        getMinDistanceToTarget ctxC3.dmap curC3.stop < ((closeEnough : ℚ) : WithTop ℚ))
      ∧ (¬ getMinDistanceToTarget ctxC3.dmap curC3.stop < ((closeEnough : ℚ) : WithTop ℚ) →
          bfsBody1 ctxC3 curC3 stC3 = .cont ⟨stC3.queue, stC3.visited,
            (if getMinDistanceToTarget ctxC3.dmap curC3.stop < stC3.bestDistance then
              some ⟨curC3.path, curC3.stop, curC3.time, curC3.numTransfers,
                getMinDistanceToTarget ctxC3.dmap curC3.stop⟩
            else stC3.bestRoute),
            (if getMinDistanceToTarget ctxC3.dmap curC3.stop < stC3.bestDistance then
              getMinDistanceToTarget ctxC3.dmap curC3.stop
            else stC3.bestDistance)⟩)
      ∧ (∀ (conn : Conn) (rest : List Conn) (q : List SState)
            (best : Option RouteResult) (bd : WithTop ℚ),
          ¬ compareTime conn.departure_time (nextAvailOf curC3) < 0 →
          conn.stop_id ∈ ctxC3.targetStops →
          connLoop1 ctxC3 curC3 (nextAvailOf curC3) (conn :: rest) q best bd
            = if getMinDistanceToTarget ctxC3.dmap conn.stop_id
                  < ((closeEnough : ℚ) : WithTop ℚ) then
                Sum.inl (if getMinDistanceToTarget ctxC3.dmap conn.stop_id < bd then
                    some ⟨curC3.path ++ [legOf curC3 conn], conn.stop_id,
                      conn.arrival_time,
                      (if isTransferConn curC3.path conn = true then
                        curC3.numTransfers + 1 else curC3.numTransfers),
                      getMinDistanceToTarget ctxC3.dmap conn.stop_id⟩
                  else best)
              else
                connLoop1 ctxC3 curC3 (nextAvailOf curC3) rest q
                  (if getMinDistanceToTarget ctxC3.dmap conn.stop_id < bd then
                    some ⟨curC3.path ++ [legOf curC3 conn], conn.stop_id,
                      conn.arrival_time,
                      (if isTransferConn curC3.path conn = true then
                        curC3.numTransfers + 1 else curC3.numTransfers),
                      getMinDistanceToTarget ctxC3.dmap conn.stop_id⟩
                  else best)
                  (if getMinDistanceToTarget ctxC3.dmap conn.stop_id < bd then
                    getMinDistanceToTarget ctxC3.dmap conn.stop_id else bd))) :=
  ⟨by decide, bfsBody1_target_ret_iff_close ctxC3 curC3 stC3 (by decide)⟩

/-- A two-stop trip fixture used by the C4 statements. -/
def pdXY : Preloaded :=
  ⟨["T"], [⟨"T", "R", "H"⟩],
   [⟨"T", "X", 1, "08:09:00", "08:10:00"⟩, ⟨"T", "Y", 2, "08:20:00", "08:20:00"⟩]⟩

/-- The popped state of the C4 statements: back at stop `X` with one transfer
already used. -/
def curXY : SState :=
  ⟨"X", "08:00:00", [⟨"A", "X", "07:50:00", "08:00:00", "T0", "R0", "H0"⟩], 1, ⊤⟩

/-- C4 counterexample: the visited set holds `("X", 0)` — the stop was visited
with strictly fewer transfers — yet the state popped at `("X", 1)` is expanded,
not skipped: its key is added to the visited set and its connection is
enqueued. -/
theorem bfsBody1_more_transfers_still_expanded :
    bfsBody1 ⟨[], [], 2, pdXY⟩ curXY ⟨[], [("X", 0)], none, ⊤⟩
      = .cont ⟨[⟨"Y", "08:20:00",
            [⟨"A", "X", "07:50:00", "08:00:00", "T0", "R0", "H0"⟩,
             ⟨"X", "Y", "08:10:00", "08:20:00", "T", "R", "H"⟩], 2, ⊤⟩],
          [("X", 0), ("X", 1)], none, ⊤⟩
    ∧ (("X", 0) ∈ ([("X", 0)] : List (String × ℕ))) ∧ (0 : ℕ) < 1 := by
  refine ⟨by decide, by decide, by decide⟩

/-- C4 as amended: the visited check of the first `bfsSearch` variant skips a
popped state (apart from the other pruning rules, isolated here by the
hypotheses) exactly when its own `(stop, transfers_used)` key was visited
before; a different transfer count for the same stop — fewer or more — is not
blocked, and an expanded state appends its key to the visited set. -/
theorem bfsBody1_visited_exact_key (ctx : BfsCtx) (current : SState) (st : BfsSt)
    (hnt : current.stop ∉ ctx.targetStops)
    (h1 : ¬ (bestIsDirect st.bestRoute = true ∧ current.path ≠ []))
    (h2 : ¬ ctx.maxTransfers < current.numTransfers)
    (h3 : ¬ (st.bestRoute.isSome = true ∧ st.bestDistance * 2 < current.distanceToTarget)) :
    ((current.stop, current.numTransfers) ∈ st.visited → bfsBody1 ctx current st = .cont st)
    ∧ ((current.stop, current.numTransfers) ∉ st.visited →
        ∀ st', bfsBody1 ctx current st = .cont st' →
          st'.visited = st.visited ++ [(current.stop, current.numTransfers)]) := by
  constructor
  · intro hv
    unfold bfsBody1
    rw [if_neg hnt, if_neg h1, if_neg h2, if_neg h3, if_pos hv]
  · intro hv st' hstep
    unfold bfsBody1 at hstep
    rw [if_neg hnt, if_neg h1, if_neg h2, if_neg h3, if_neg hv] at hstep
    cases hcl : connLoop1 ctx current (nextAvailOf current)
        (getDirectConnections current.stop current.time ctx.pd)
        st.queue st.bestRoute st.bestDistance with
    | inl r =>
      simp only [hcl] at hstep
      exact StepRes.noConfusion hstep
    | inr t =>
      obtain ⟨q, best, bd⟩ := t
      simp only [hcl] at hstep
      injection hstep with h'
      rw [← h']

/-- Witness for C4's amended theorem at a concrete non-target state. -/
theorem bfsBody1_visited_exact_key_witness :
    ((curXY.stop ∉ (([] : List String)))
    ∧ ¬ (bestIsDirect none = true ∧ curXY.path ≠ [])
    ∧ ¬ (2 : ℕ) < curXY.numTransfers
    ∧ ¬ ((none : Option RouteResult).isSome = true
          ∧ (⊤ : WithTop ℚ) * 2 < curXY.distanceToTarget))
    ∧ (((curXY.stop, curXY.numTransfers) ∈ ([("X", 0)] : List (String × ℕ)) →
        bfsBody1 ⟨[], [], 2, pdXY⟩ curXY ⟨[], [("X", 0)], none, ⊤⟩
          = .cont ⟨[], [("X", 0)], none, ⊤⟩)
    ∧ ((curXY.stop, curXY.numTransfers) ∉ ([("X", 0)] : List (String × ℕ)) →
        ∀ st', bfsBody1 ⟨[], [], 2, pdXY⟩ curXY ⟨[], [("X", 0)], none, ⊤⟩ = .cont st' →
          st'.visited = [("X", 0)] ++ [(curXY.stop, curXY.numTransfers)])) :=
  ⟨⟨by decide, by decide, by decide, by decide⟩,
    bfsBody1_visited_exact_key ⟨[], [], 2, pdXY⟩ curXY ⟨[], [("X", 0)], none, ⊤⟩
      (by decide) (by decide) (by decide) (by decide)⟩

/-- The score `numTransfers * 1000 + distance * 10` of the combined variant's
`bfsSearch`. -/
def scoreOf (nt : ℕ) (d : WithTop ℚ) : WithTop ℚ :=
  (((nt : ℚ) * 1000 : ℚ) : WithTop ℚ) + d * ((10 : ℚ) : WithTop ℚ)

/-- `bestRoute && bestRoute.numTransfers === 1`. -/
def bestIsOne (best : Option RouteResult) : Bool :=
  match best with
  | some b => b.numTransfers == 1
  | none => false

/-- The loop state of the combined variant's `bfsSearch`: it tracks a best
score instead of a best distance. -/
structure BfsSt2 where
  queue : List SState
  visited : List (String × ℕ)
  bestRoute : Option RouteResult
  bestScore : WithTop ℚ
deriving DecidableEq

/-- One iteration outcome of the combined variant. -/
inductive StepRes2 where
  | ret : Option RouteResult → StepRes2
  | cont : BfsSt2 → StepRes2
deriving DecidableEq

/-- The ordered insertion of the combined variant (`find_transit_combined`
lines 1426–1440): insert before the first queued item that the new state
beats under (fewer transfers, then closer distance). -/
def insertPrio2 (x : SState) : List SState → List SState
  | [] => [x]
  | item :: rest =>
    if x.numTransfers < item.numTransfers
        ∨ (x.numTransfers = item.numTransfers
            ∧ x.distanceToTarget < item.distanceToTarget) then
      x :: item :: rest
    else item :: insertPrio2 x rest

/-- The connection loop of the combined variant's `bfsSearch`. -/
def connLoop2 (ctx : BfsCtx) (current : SState) (nextAvail : String) :
    List Conn → List SState → Option RouteResult → WithTop ℚ →
      Option RouteResult ⊕ (List SState × Option RouteResult × WithTop ℚ)
  | [], q, best, bs => Sum.inr (q, best, bs)
  | conn :: rest, q, best, bs =>
    if compareTime conn.departure_time nextAvail < 0 then
      connLoop2 ctx current nextAvail rest q best bs
    else
      let isTr := isTransferConn current.path conn
      let newNum := if isTr = true then current.numTransfers + 1 else current.numTransfers
      if ctx.maxTransfers < newNum then
        connLoop2 ctx current nextAvail rest q best bs
      else if bestIsDirect best = true ∧ 0 < newNum then
        connLoop2 ctx current nextAvail rest q best bs
      else if bestIsOne best = true ∧ 2 ≤ newNum then
        connLoop2 ctx current nextAvail rest q best bs
      else
        let newLeg := legOf current conn
        if conn.stop_id ∈ ctx.targetStops then
          let d := getMinDistanceToTarget ctx.dmap conn.stop_id
          let score := scoreOf newNum d
          if score < bs then
            let best' := some ⟨current.path ++ [newLeg], conn.stop_id,
              conn.arrival_time, newNum, d⟩
            if newNum = 0 then Sum.inl best'
            else if newNum = 1 then Sum.inl best'
            else connLoop2 ctx current nextAvail rest q best' score
          else connLoop2 ctx current nextAvail rest q best bs
        else if bestIsDirect best = true then
          connLoop2 ctx current nextAvail rest q best bs
        else if bestIsOne best = true ∧ 2 ≤ newNum then
          connLoop2 ctx current nextAvail rest q best bs
        else
          connLoop2 ctx current nextAvail rest
            (insertPrio2 ⟨conn.stop_id, conn.arrival_time, current.path ++ [newLeg],
              newNum, getMinDistanceToTarget ctx.dmap conn.stop_id⟩ q)
            best bs

/-- The loop body of the combined variant's `bfsSearch`. -/
def bfsBody2 (ctx : BfsCtx) (current : SState) (st : BfsSt2) : StepRes2 :=
  if current.stop ∈ ctx.targetStops then
    let d := getMinDistanceToTarget ctx.dmap current.stop
    let score := scoreOf current.numTransfers d
    if score < st.bestScore then
      let best' := some ⟨current.path, current.stop, current.time, current.numTransfers, d⟩
      if current.numTransfers = 0 then .ret best'
      else if current.numTransfers = 1 then .ret best'
      else .cont ⟨st.queue, st.visited, best', score⟩
    else .cont ⟨st.queue, st.visited, st.bestRoute, st.bestScore⟩
  else if bestIsDirect st.bestRoute = true ∧ current.path ≠ [] then .cont st
  else if bestIsOne st.bestRoute = true ∧ 1 ≤ current.numTransfers then .cont st
  else if ctx.maxTransfers < current.numTransfers then .cont st
  else if (current.stop, current.numTransfers) ∈ st.visited then .cont st
  else
    let visited' := st.visited ++ [(current.stop, current.numTransfers)]
    let conns := getDirectConnections current.stop current.time ctx.pd
    let nextAvail := nextAvailOf current
    match connLoop2 ctx current nextAvail conns st.queue st.bestRoute st.bestScore with
    | Sum.inl r => .ret r
    | Sum.inr (q, best, bs) => .cont ⟨q, visited', best, bs⟩

/-- The combined variant's loop (`MAX_ITERATIONS = 50000` as fuel). -/
def bfsLoop2 (ctx : BfsCtx) : ℕ → BfsSt2 → Option RouteResult
  | 0, st => st.bestRoute
  | fuel + 1, st =>
    match st.queue with
    | [] => st.bestRoute
    | current :: rest =>
      match bfsBody2 ctx current ⟨rest, st.visited, st.bestRoute, st.bestScore⟩ with
      | .ret r => r
      | .cont st' => bfsLoop2 ctx fuel st'

/-- `bfsSearch` of the combined variant. -/
def bfsSearch2 (startStop : String) (targetStops : List String)
    (targetStopsList : List CandStop) (startTime : String) (maxTransfers : ℕ)
    (pd : Preloaded) : Option RouteResult :=
  let dmap := stopDistanceMapOf targetStopsList
  if startStop ∈ targetStops then
    some ⟨[], startStop, startTime, 0, getMinDistanceToTarget dmap startStop⟩
  else
    bfsLoop2 ⟨targetStops, dmap, maxTransfers, pd⟩ 50000
      ⟨[⟨startStop, startTime, [], 0, getMinDistanceToTarget dmap startStop⟩], [], none, ⊤⟩

/-- The lexicographic (transfers, then distance) frontier preorder of the
claim. -/
def stateLe (a b : SState) : Prop :=
  a.numTransfers < b.numTransfers
    ∨ (a.numTransfers = b.numTransfers ∧ a.distanceToTarget ≤ b.distanceToTarget)

instance : DecidableRel stateLe := fun a b =>
  inferInstanceAs (Decidable (a.numTransfers < b.numTransfers
    ∨ (a.numTransfers = b.numTransfers ∧ a.distanceToTarget ≤ b.distanceToTarget)))

theorem stateLe_trans {a b c : SState} (h1 : stateLe a b) (h2 : stateLe b c) :
    stateLe a c := by
  rcases h1 with h1 | ⟨h1e, h1d⟩ <;> rcases h2 with h2 | ⟨h2e, h2d⟩
  · exact Or.inl (Nat.lt_trans h1 h2)
  · exact Or.inl (h2e ▸ h1)
  · exact Or.inl (h1e ▸ h2)
  · exact Or.inr ⟨h1e.trans h2e, le_trans h1d h2d⟩

theorem stateLe_of_not_insert_cond {x item : SState}
    (h : ¬ (x.numTransfers < item.numTransfers
        ∨ (x.numTransfers = item.numTransfers
            ∧ x.distanceToTarget < item.distanceToTarget))) :
    stateLe item x := by
  by_cases hlt : item.numTransfers < x.numTransfers
  · exact Or.inl hlt
  · have h1 : ¬ x.numTransfers < item.numTransfers := fun hc => h (Or.inl hc)
    have heq : x.numTransfers = item.numTransfers :=
      Nat.le_antisymm (Nat.le_of_not_lt hlt) (Nat.le_of_not_lt h1)
    have h2 : ¬ x.distanceToTarget < item.distanceToTarget :=
      fun hc => h (Or.inr ⟨heq, hc⟩)
    exact Or.inr ⟨heq.symm, not_lt.mp h2⟩

theorem stateLe_of_insert_cond {x item : SState}
    (h : x.numTransfers < item.numTransfers
        ∨ (x.numTransfers = item.numTransfers
            ∧ x.distanceToTarget < item.distanceToTarget)) :
    stateLe x item := by
  rcases h with h | ⟨he, hd⟩
  · exact Or.inl h
  · exact Or.inr ⟨he, le_of_lt hd⟩

theorem mem_insertPrio2 {z x : SState} :
    ∀ {l : List SState}, z ∈ insertPrio2 x l ↔ z = x ∨ z ∈ l := by
  intro l
  induction l with
  | nil => simp [insertPrio2]
  | cons item rest ih =>
    by_cases hc : x.numTransfers < item.numTransfers
        ∨ (x.numTransfers = item.numTransfers
            ∧ x.distanceToTarget < item.distanceToTarget)
    · rw [insertPrio2, if_pos hc]
      simp [List.mem_cons]
    · rw [insertPrio2, if_neg hc]
      simp [List.mem_cons, ih]
      tauto

theorem insertPrio2_pairwise (x : SState) :
    ∀ {l : List SState}, l.Pairwise stateLe → (insertPrio2 x l).Pairwise stateLe := by
  intro l
  induction l with
  | nil => intro _; simp [insertPrio2, List.pairwise_singleton]
  | cons item rest ih =>
    intro hp
    obtain ⟨hhead, htail⟩ := List.pairwise_cons.mp hp
    by_cases hc : x.numTransfers < item.numTransfers
        ∨ (x.numTransfers = item.numTransfers
            ∧ x.distanceToTarget < item.distanceToTarget)
    · rw [insertPrio2, if_pos hc]
      refine List.pairwise_cons.mpr ⟨?_, hp⟩
      intro z hz
      rcases List.mem_cons.mp hz with rfl | hz'
      · exact stateLe_of_insert_cond hc
      · exact stateLe_trans (stateLe_of_insert_cond hc) (hhead z hz')
    · rw [insertPrio2, if_neg hc]
      refine List.pairwise_cons.mpr ⟨?_, ih htail⟩
      intro z hz
      rcases mem_insertPrio2.mp hz with rfl | hz'
      · exact stateLe_of_not_insert_cond hc
      · exact hhead z hz'

set_option maxHeartbeats 1600000 in
theorem connLoop2_queue_pairwise (ctx : BfsCtx) (current : SState) (nextAvail : String) :
    ∀ (conns : List Conn) (q : List SState) (best : Option RouteResult) (bs : WithTop ℚ)
      (t : List SState × Option RouteResult × WithTop ℚ),
      q.Pairwise stateLe →
      connLoop2 ctx current nextAvail conns q best bs = Sum.inr t →
      t.1.Pairwise stateLe := by
  intro conns
  induction conns with
  | nil =>
    intro q best bs t hq hstep
    injection hstep with h'
    rw [← h']
    exact hq
  | cons conn rest ih =>
    intro q best bs t hq hstep
    simp only [connLoop2] at hstep
    split_ifs at hstep
    all_goals
      first
      | exact Sum.noConfusion hstep
      | exact ih _ _ _ t hq hstep
      | exact ih _ _ _ t (insertPrio2_pairwise _ hq) hstep

/-- C2 counterexample: in the first `bfsSearch` variant a loop step of the
search inserts a one-transfer state closer to the destination ahead of a
queued zero-transfer state — the resulting frontier dequeues the
more-transfers state first, refuting the claimed (transfers, distance)
order. The queue shown is produced by the cited ordered insertion, which
compares distance before transfers. (The arguments tag stop `P3` with a
distance without listing it in the target set — `bfsSearch` takes the set
and the list as separate parameters; when the caller passes consistent
arguments every enqueued state has infinite distance, which masks the
comparator's distance-first order rather than establishing the claimed
one.) -/
theorem bfsBody1_frontier_not_transfer_first :
    bfsBody1 ⟨["T"], [("P3", 1), ("T", 5)], 2,
        ⟨["TB"], [⟨"TB", "RB", "HB"⟩],
         [⟨"TB", "C", 1, "08:09:00", "08:10:00"⟩, ⟨"TB", "P3", 2, "08:30:00", "08:30:00"⟩]⟩⟩
        ⟨"C", "08:00:00", [⟨"W", "C", "07:40:00", "08:00:00", "TA", "RA", "HA"⟩], 0, ⊤⟩
        ⟨[⟨"P2", "09:00:00", [], 0, ⊤⟩], [], none, ⊤⟩
      = .cont ⟨[⟨"P3", "08:30:00",
            [⟨"W", "C", "07:40:00", "08:00:00", "TA", "RA", "HA"⟩,
             ⟨"C", "P3", "08:10:00", "08:30:00", "TB", "RB", "HB"⟩], 1, ((1 : ℚ) : WithTop ℚ)⟩,
          ⟨"P2", "09:00:00", [], 0, ⊤⟩],
          [("C", 0)], none, ⊤⟩
    ∧ (1 : ℕ) ≠ 0 := by
  refine ⟨by decide, by decide⟩

/-- C2 as amended: in the combined variant the frontier is kept sorted under
the lexicographic (transfers, then distance) preorder — the dequeued state
never has more transfers than any state left in the frontier (and, on equal
transfers, never a larger distance), and one loop step preserves the sorted
order. (The first variant's insertion compares distance before transfers
instead.) -/
theorem bfsBody2_frontier_lex (ctx : BfsCtx) (current : SState) (st : BfsSt2) (st' : BfsSt2)
    (hsorted : (current :: st.queue).Pairwise stateLe)
    (hstep : bfsBody2 ctx current st = .cont st') :
    (∀ x ∈ current :: st.queue,
      current.numTransfers ≤ x.numTransfers
      ∧ (current.numTransfers = x.numTransfers →
          current.distanceToTarget ≤ x.distanceToTarget))
    ∧ st'.queue.Pairwise stateLe := by
  obtain ⟨hhead, htail⟩ := List.pairwise_cons.mp hsorted
  constructor
  · intro x hx
    rcases List.mem_cons.mp hx with rfl | hx'
    · exact ⟨le_refl _, fun _ => le_refl _⟩
    · rcases hhead x hx' with hlt | ⟨he, hd⟩
      · exact ⟨Nat.le_of_lt hlt, fun he => absurd (he ▸ hlt) (lt_irrefl _)⟩
      · exact ⟨Nat.le_of_eq he, fun _ => hd⟩
  · simp only [bfsBody2] at hstep
    split_ifs at hstep with htgt hscore hz ho hdir hone hmax hvis
    all_goals
      first
      | exact StepRes2.noConfusion hstep
      | (injection hstep with h'; rw [← h']; exact htail)
      | skip
    cases hcl : connLoop2 ctx current (nextAvailOf current)
        (getDirectConnections current.stop current.time ctx.pd)
        st.queue st.bestRoute st.bestScore with
    | inl r =>
      simp only [hcl] at hstep
      exact StepRes2.noConfusion hstep
    | inr t =>
      simp only [hcl] at hstep
      injection hstep with h'
      rw [← h']
      exact connLoop2_queue_pairwise ctx current _ _ _ _ _ t htail hcl

/-- Witness for C2's amended theorem: a singleton frontier stepped by a
transfers-capped state. -/
theorem bfsBody2_frontier_lex_witness :
    ((⟨"Z", "08:00:00", [], 1, ⊤⟩ : SState) ::
        (⟨([] : List SState), [], none, ⊤⟩ : BfsSt2).queue).Pairwise stateLe
    ∧ bfsBody2 ⟨[], [], 0, ⟨[], [], []⟩⟩ ⟨"Z", "08:00:00", [], 1, ⊤⟩ ⟨[], [], none, ⊤⟩
        = .cont ⟨[], [], none, ⊤⟩
    ∧ ((∀ x ∈ (⟨"Z", "08:00:00", [], 1, ⊤⟩ : SState) ::
          (⟨([] : List SState), [], none, ⊤⟩ : BfsSt2).queue,
        (⟨"Z", "08:00:00", [], 1, ⊤⟩ : SState).numTransfers ≤ x.numTransfers
        ∧ ((⟨"Z", "08:00:00", [], 1, ⊤⟩ : SState).numTransfers = x.numTransfers →
            (⟨"Z", "08:00:00", [], 1, ⊤⟩ : SState).distanceToTarget ≤ x.distanceToTarget))
      ∧ (⟨([] : List SState), [], none, ⊤⟩ : BfsSt2).queue.Pairwise stateLe) :=
  ⟨by decide, by decide,
    bfsBody2_frontier_lex ⟨[], [], 0, ⟨[], [], []⟩⟩ ⟨"Z", "08:00:00", [], 1, ⊤⟩
      ⟨[], [], none, ⊤⟩ ⟨[], [], none, ⊤⟩ (by decide) (by decide)⟩

/-- `calculateTotalTime` from the combined variant: minutes from the first
leg's departure to the last leg's arrival plus walking minutes; `Infinity`
for an absent or empty-path result. -/
def calculateTotalTime (result : Option RouteResult) (walkTime : ℤ) : WithTop ℤ :=
  match result with
  | none => ⊤
  | some r =>
    match r.path.head?, r.path.getLast? with
    | some firstLeg, some lastLeg =>
      ((timeDifferenceMinutes firstLeg.departure lastLeg.arrival + walkTime : ℤ) : WithTop ℤ)
    | _, _ => ⊤

/-- An entry of `nearbyResults`: a found route and the walk minutes
`ceil(distance_m / 80)` computed for its walkable stop. -/
structure NearbyRouteInfo where
  result : RouteResult
  walkTime : ℤ
deriving DecidableEq

/-- The score `totalTime + numTransfers * 30` of the final comparison in the
combined variant's `main`. -/
def candScore (r : RouteResult) (walkTime : ℤ) : WithTop ℤ :=
  calculateTotalTime (some r) walkTime + (((r.numTransfers : ℤ) * 30 : ℤ) : WithTop ℤ)

/-- One comparison step of the final `main` selection: strict improvement
replaces the incumbent. -/
def stepPick (acc : Option (RouteResult × ℤ) × WithTop ℤ) (c : RouteResult × ℤ) :
    Option (RouteResult × ℤ) × WithTop ℤ :=
  if candScore c.1 c.2 < acc.2 then (some c, candScore c.1 c.2) else acc

/-- The candidate list the combined variant's `main` walks: the original-stop
result (walk 0) first, then each nearby result with its walk minutes. -/
def mainCandidates (originalResult : Option RouteResult)
    (nearbyResults : List NearbyRouteInfo) : List (RouteResult × ℤ) :=
  (match originalResult with
   | some r => [(r, 0)]
   | none => []) ++ nearbyResults.map (fun n => (n.result, n.walkTime))

/-- The final comparison of the combined variant's `main` (lines 1629–1660):
start from `bestOverallScore = Infinity`, consider the original result, then
every nearby result, keeping the strictly smaller score. -/
def pickBestOverall (originalResult : Option RouteResult)
    (nearbyResults : List NearbyRouteInfo) : Option (RouteResult × ℤ) :=
  ((mainCandidates originalResult nearbyResults).foldl stepPick (none, ⊤)).1

theorem stepPick_score_le (acc : Option (RouteResult × ℤ) × WithTop ℤ)
    (c : RouteResult × ℤ) :
    (stepPick acc c).2 ≤ acc.2 ∧ (stepPick acc c).2 ≤ candScore c.1 c.2 := by
  unfold stepPick
  by_cases h : candScore c.1 c.2 < acc.2
  · rw [if_pos h]
    exact ⟨le_of_lt h, le_refl _⟩
  · rw [if_neg h]
    exact ⟨le_refl _, not_lt.mp h⟩

theorem foldl_stepPick_score_le :
    ∀ (cands : List (RouteResult × ℤ)) (acc : Option (RouteResult × ℤ) × WithTop ℤ),
      (cands.foldl stepPick acc).2 ≤ acc.2
      ∧ ∀ c ∈ cands, (cands.foldl stepPick acc).2 ≤ candScore c.1 c.2 := by
  intro cands
  induction cands with
  | nil => intro acc; exact ⟨le_refl _, by simp⟩
  | cons c rest ih =>
    intro acc
    have hstep := stepPick_score_le acc c
    have hrest := ih (stepPick acc c)
    refine ⟨le_trans hrest.1 hstep.1, ?_⟩
    intro x hx
    rcases List.mem_cons.mp hx with rfl | hx'
    · exact le_trans hrest.1 hstep.2
    · exact hrest.2 x hx'

theorem foldl_stepPick_sound :
    ∀ (cands : List (RouteResult × ℤ)) (acc : Option (RouteResult × ℤ) × WithTop ℤ),
      (∀ x, acc.1 = some x → acc.2 = candScore x.1 x.2) →
      ∀ b, (cands.foldl stepPick acc).1 = some b →
        ((cands.foldl stepPick acc).2 = candScore b.1 b.2 ∧ (b ∈ cands ∨ acc.1 = some b)) := by
  intro cands
  induction cands with
  | nil =>
    intro acc hacc b hb
    exact ⟨hacc b hb, Or.inr hb⟩
  | cons c rest ih =>
    intro acc hacc b hb
    have hacc' : ∀ x, (stepPick acc c).1 = some x → (stepPick acc c).2 = candScore x.1 x.2 := by
      intro x hx
      unfold stepPick at hx ⊢
      by_cases h : candScore c.1 c.2 < acc.2
      · rw [if_pos h] at hx ⊢
        injection hx with hx'
        rw [← hx']
      · rw [if_neg h] at hx ⊢
        exact hacc x hx
    obtain ⟨hscore, hmem⟩ := ih (stepPick acc c) hacc' b hb
    refine ⟨hscore, ?_⟩
    rcases hmem with hm | hm
    · exact Or.inl (List.mem_cons_of_mem c hm)
    · unfold stepPick at hm
      by_cases h : candScore c.1 c.2 < acc.2
      · rw [if_pos h] at hm
        injection hm with hm'
        exact Or.inl (hm' ▸ List.mem_cons_self c rest)
      · rw [if_neg h] at hm
        exact Or.inr hm

/-- C6: every candidate of the walk-fallback comparison — the original-stop
run with walk 0, and each nearby-stop run with its walk minutes — is scored
`total_minutes + 30 · transfers`, and the journey `main` returns is one of
the candidates with the smallest such score. -/
theorem pickBestOverall_min_score (originalResult : Option RouteResult)
    (nearbyResults : List NearbyRouteInfo) (b : RouteResult × ℤ)
    (hpick : pickBestOverall originalResult nearbyResults = some b) :
    (b ∈ mainCandidates originalResult nearbyResults)
    ∧ (∀ r, originalResult = some r → candScore b.1 b.2 ≤ candScore r 0)
    ∧ (∀ n ∈ nearbyResults, candScore b.1 b.2 ≤ candScore n.result n.walkTime) := by
  unfold pickBestOverall at hpick
  obtain ⟨hscore, hmem⟩ :=
    foldl_stepPick_sound (mainCandidates originalResult nearbyResults) (none, ⊤)
      (by intro x hx; cases hx) b hpick
  have hle := foldl_stepPick_score_le (mainCandidates originalResult nearbyResults) (none, ⊤)
  have hmin : ∀ c ∈ mainCandidates originalResult nearbyResults,
      candScore b.1 b.2 ≤ candScore c.1 c.2 := by
    intro c hc
    rw [← hscore]
    exact hle.2 c hc
  refine ⟨?_, ?_, ?_⟩
  · rcases hmem with hm | hm
    · exact hm
    · cases hm
  · intro r hr
    have : (r, (0 : ℤ)) ∈ mainCandidates originalResult nearbyResults := by
      unfold mainCandidates
      rw [hr]
      exact List.mem_append_left _ (List.mem_singleton.mpr rfl)
    exact hmin (r, 0) this
  · intro n hn
    have : (n.result, n.walkTime) ∈ mainCandidates originalResult nearbyResults := by
      unfold mainCandidates
      exact List.mem_append_right _ (List.mem_map.mpr ⟨n, hn, rfl⟩)
    exact hmin (n.result, n.walkTime) this

/-- Witness for C6: the original run scores 120 (60 transit minutes, two
transfers), a nearby run with a 5-minute walk scores 35 and is chosen. -/
theorem pickBestOverall_min_score_witness :
    pickBestOverall
        (some ⟨[⟨"A", "B", "08:00:00", "09:00:00", "T1", "R1", "H1"⟩], "B", "09:00:00", 2, ⊤⟩)
        [⟨⟨[⟨"W", "B", "08:00:00", "08:30:00", "T2", "R2", "H2"⟩], "B", "08:30:00", 0, ⊤⟩, 5⟩]
      = some (⟨[⟨"W", "B", "08:00:00", "08:30:00", "T2", "R2", "H2"⟩], "B", "08:30:00", 0, ⊤⟩, 5)
    ∧ ((⟨[⟨"W", "B", "08:00:00", "08:30:00", "T2", "R2", "H2"⟩], "B", "08:30:00", 0, ⊤⟩, (5 : ℤ))
        ∈ mainCandidates
          (some ⟨[⟨"A", "B", "08:00:00", "09:00:00", "T1", "R1", "H1"⟩], "B", "09:00:00", 2, ⊤⟩)
          [⟨⟨[⟨"W", "B", "08:00:00", "08:30:00", "T2", "R2", "H2"⟩], "B", "08:30:00", 0, ⊤⟩, 5⟩]
      ∧ (∀ r, (some ⟨[⟨"A", "B", "08:00:00", "09:00:00", "T1", "R1", "H1"⟩], "B", "09:00:00", 2, ⊤⟩
            : Option RouteResult) = some r →
          candScore ⟨[⟨"W", "B", "08:00:00", "08:30:00", "T2", "R2", "H2"⟩], "B", "08:30:00", 0, ⊤⟩ 5
            ≤ candScore r 0)
      ∧ (∀ n ∈ [(⟨⟨[⟨"W", "B", "08:00:00", "08:30:00", "T2", "R2", "H2"⟩], "B", "08:30:00", 0, ⊤⟩, 5⟩
            : NearbyRouteInfo)],
          candScore ⟨[⟨"W", "B", "08:00:00", "08:30:00", "T2", "R2", "H2"⟩], "B", "08:30:00", 0, ⊤⟩ 5
            ≤ candScore n.result n.walkTime)) :=
  ⟨by decide, pickBestOverall_min_score _ _ _ (by decide)⟩

/-- JavaScript string comparison (`<` and ascending `localeCompare` on these
ASCII ids): code-unit lexicographic order on the character lists. -/
def strLtB : List Char → List Char → Bool
  | [], [] => false
  | [], _ :: _ => true
  | _ :: _, [] => false
  | a :: as, b :: bs => if a < b then true else if b < a then false else strLtB as bs

/-- `a < b` on strings as the scripts use it. -/
def strLt (a b : String) : Bool := strLtB a.toList b.toList

theorem strLtB_irrefl : ∀ l, strLtB l l = false
  | [] => rfl
  | c :: rest => by
    rw [strLtB, if_neg (lt_irrefl c), if_neg (lt_irrefl c)]
    exact strLtB_irrefl rest

theorem strLtB_trans : ∀ (a b c : List Char),
    strLtB a b = true → strLtB b c = true → strLtB a c = true := by
  intro a
  induction a with
  | nil =>
    intro b c h1 h2
    cases b with
    | nil => simp [strLtB] at h1
    | cons y ys =>
      cases c with
      | nil => simp [strLtB] at h2
      | cons z zs => rfl
  | cons x xs ih =>
    intro b c h1 h2
    cases b with
    | nil => simp [strLtB] at h1
    | cons y ys =>
      cases c with
      | nil => simp [strLtB] at h2
      | cons z zs =>
        rw [strLtB] at h1 h2 ⊢
        by_cases hxy : x < y
        · by_cases hyz : y < z
          · rw [if_pos (lt_trans hxy hyz)]
          · by_cases hzy : z < y
            · rw [if_neg hyz, if_pos hzy] at h2
              cases h2
            · have hyz' : y = z := le_antisymm (not_lt.mp hzy) (not_lt.mp hyz)
              rw [← hyz']
              rw [if_pos hxy]
        · by_cases hyx : y < x
          · rw [if_neg hxy, if_pos hyx] at h1
            cases h1
          · have hxy' : x = y := le_antisymm (not_lt.mp hyx) (not_lt.mp hxy)
            rw [if_neg hxy, if_neg hyx] at h1
            rw [← hxy'] at h2
            by_cases hxz : x < z
            · rw [if_pos hxz]
            · by_cases hzx : z < x
              · rw [if_neg hxz, if_pos hzx] at h2
                cases h2
              · rw [if_neg hxz, if_neg hzx] at h2 ⊢
                exact ih ys zs h1 h2

theorem strLtB_trichotomy : ∀ (a b : List Char),
    strLtB a b = true ∨ a = b ∨ strLtB b a = true := by
  intro a
  induction a with
  | nil =>
    intro b
    cases b with
    | nil => exact Or.inr (Or.inl rfl)
    | cons y ys => exact Or.inl rfl
  | cons x xs ih =>
    intro b
    cases b with
    | nil => exact Or.inr (Or.inr rfl)
    | cons y ys =>
      rcases lt_trichotomy x y with hxy | hxy | hxy
      · exact Or.inl (by rw [strLtB, if_pos hxy])
      · subst hxy
        rcases ih ys with h | h | h
        · refine Or.inl ?_
          rw [strLtB, if_neg (lt_irrefl x), if_neg (lt_irrefl x)]
          exact h
        · exact Or.inr (Or.inl (by rw [h]))
        · refine Or.inr (Or.inr ?_)
          rw [strLtB, if_neg (lt_irrefl x), if_neg (lt_irrefl x)]
          exact h
      · exact Or.inr (Or.inr (by rw [strLtB, if_pos hxy]))

theorem strLt_asymm {a b : String} (h : strLt a b = true) : strLt b a = false := by
  cases hv : strLt b a
  · rfl
  · have habs : strLtB a.toList a.toList = true := strLtB_trans _ _ _ h hv
    rw [strLtB_irrefl] at habs
    cases habs

theorem strLt_false_trans {a b c : String} (h1 : strLt b a = false) (h2 : strLt c b = false) :
    strLt c a = false := by
  cases hv : strLt c a
  · rfl
  · exfalso
    rcases strLtB_trichotomy a.toList b.toList with hab | hab | hab
    · have habs : strLtB c.toList b.toList = true := strLtB_trans _ _ _ hv hab
      rw [show strLt c b = strLtB c.toList b.toList from rfl, habs] at h2
      cases h2
    · rw [show strLt c b = strLtB c.toList b.toList from rfl, ← hab] at h2
      have hv' : strLtB c.toList a.toList = true := hv
      rw [hv'] at h2
      cases h2
    · rw [show strLt b a = strLtB b.toList a.toList from rfl, hab] at h1
      cases h1

/-- A match object pushed into `matchesByDest` by `findBestDirectTrip`. -/
structure MatchT where
  trip_id : String
  departure_time : String
  arrival_at_B : String
  route_id : String
  headsign : String
  stopB : String
deriving DecidableEq

/-- The per-destination sort comparator
`(a, b) => a.departure_time.localeCompare(b.departure_time)`: a stable sort
under departure-string `≤`. -/
def depLe (a b : MatchT) : Prop := strLt b.departure_time a.departure_time = false

instance : DecidableRel depLe := fun a b =>
  inferInstanceAs (Decidable (strLt b.departure_time a.departure_time = false))

instance : IsTotal MatchT depLe := ⟨fun a b => by
  cases hv : strLt b.departure_time a.departure_time
  · exact Or.inl hv
  · exact Or.inr (strLt_asymm hv)⟩

instance : IsTrans MatchT depLe :=
  ⟨fun _ _ _ h1 h2 => strLt_false_trans h1 h2⟩

theorem depLe_refl (a : MatchT) : depLe a a := strLtB_irrefl _

/-- The stop data `findBestDirectTrip` stores per `(trip, stop)`. -/
structure RowInfo where
  seq : ℕ
  dep : String
  arr : String
deriving DecidableEq

/-- The rows `findBestDirectTrip` keeps while scanning `stop_times`: a valid
trip, and a stop that is the source or one of the candidates. -/
def relevantRows (rows : List StRow) (validTripIds : List String) (stopA : String)
    (candIds : List String) : List StRow :=
  rows.filter (fun r => validTripIds.contains r.trip_id
    && (r.stop_id == stopA || candIds.contains r.stop_id))

/-- A trip's inner stop object `tripStops[tId]`: assignment overwrites, so the
later row for the same stop wins — modelled by reversing and reading the first
match. -/
def stopAssocOf (rows : List StRow) (t : String) : List (String × RowInfo) :=
  ((rows.filter (fun r => r.trip_id = t)).map
    (fun r => (r.stop_id, ⟨r.seq, r.dep, r.arr⟩))).reverse

/-- `tripStops[tId][sId]` read. -/
def lookupStop (m : List (String × RowInfo)) (sId : String) : Option RowInfo :=
  (m.find? (fun p => p.1 = sId)).map Prod.snd

/-- `tripStops` of `findBestDirectTrip`: trips in first-encounter order with
their stop objects. -/
def tripStopsC1 (rows : List StRow) (validTripIds : List String) (stopA : String)
    (candIds : List String) : List (String × List (String × RowInfo)) :=
  (firstKeys ((relevantRows rows validTripIds stopA candIds).map StRow.trip_id)).map
    (fun t => (t, stopAssocOf (relevantRows rows validTripIds stopA candIds) t))

/-- The `(destination, match)` pairs pushed into `matchesByDest`: one per
`(trip, candidate)` pair where the trip holds the source before the
candidate. -/
def directMatches (pd : Preloaded) (ts : List (String × List (String × RowInfo)))
    (stopA : String) (cands : List CandStop) : List (String × MatchT) :=
  ts.flatMap (fun g =>
    match lookupStop g.2 stopA with
    | none => []
    | some a =>
      cands.filterMap (fun c =>
        match lookupStop g.2 c.stop_id with
        | none => none
        | some b =>
          if a.seq < b.seq then
            some (c.stop_id, ⟨g.1, a.dep, b.arr, (tripInfoOf pd g.1).route_id,
              (tripInfoOf pd g.1).trip_headsign, c.stop_id⟩)
          else none))

/-- `matches.sort(...localeCompare...).find(m => m.departure_time > userTime)`:
the first match departing strictly after the user time, in sorted order. -/
def nextTripOf (userTime : String) (ms : List MatchT) : Option MatchT :=
  (ms.insertionSort depLe).find? (fun x => strLt userTime x.departure_time)

/-- The per-destination comparison of `findBestDirectTrip` (lines 314–335):
banded by `0.8 ×` and `1.2 ×` the incumbent's distance. -/
def bestTripStep (cands : List CandStop) (userTime : String)
    (acc : Option MatchT × ℚ) (g : String × List MatchT) : Option MatchT × ℚ :=
  match nextTripOf userTime g.2 with
  | none => acc
  | some nextTrip =>
    let stopDistance := ((cands.find? (fun s => s.stop_id = g.1)).map CandStop.distance).getD 0
    match acc.1 with
    | none => (some nextTrip, stopDistance)
    | some bestTrip =>
      if stopDistance < acc.2 * (mkRat 8 10)
          ∨ (stopDistance < acc.2 * (mkRat 12 10)
              ∧ strLt nextTrip.departure_time bestTrip.departure_time = true) then
        (some nextTrip, stopDistance)
      else acc

/-- The destination loop of `findBestDirectTrip` over `matchesByDest`. -/
def bestTripFold (cands : List CandStop) (userTime : String)
    (dests : List (String × List MatchT)) : Option MatchT :=
  (dests.foldl (bestTripStep cands userTime) (none, (0 : ℚ))).1

/-- `findBestDirectTrip` from `find_next_transit.js`. -/
def findBestDirectTrip (stopA : String) (candidateStops : List CandStop)
    (userTime : String) (pd : Preloaded) : Option MatchT :=
  if pd.validTripIds = [] then none
  else
    bestTripFold candidateStops userTime
      (groupByKey (directMatches pd
        (tripStopsC1 pd.stopTimeRows pd.validTripIds stopA (candidateStops.map CandStop.stop_id))
        stopA candidateStops))

/-- An eligible single-trip leg, phrased over the very stop map the code
builds: the trip holds the source stop with departure strictly after
`userTime`, and the candidate stop at a strictly greater sequence. -/
def EligibleLeg (ts : List (String × List (String × RowInfo))) (stopA userTime : String)
    (cands : List CandStop) (tId stopB dep : String) : Prop :=
  ∃ g ∈ ts, g.1 = tId ∧ (∃ c ∈ cands, c.stop_id = stopB)
    ∧ ∃ a ∈ (lookupStop g.2 stopA).toList, ∃ b ∈ (lookupStop g.2 stopB).toList,
      a.dep = dep ∧ a.seq < b.seq ∧ strLt userTime dep = true

instance (ts : List (String × List (String × RowInfo))) (stopA userTime : String)
    (cands : List CandStop) (tId stopB dep : String) :
    Decidable (EligibleLeg ts stopA userTime cands tId stopB dep) := by
  unfold EligibleLeg
  infer_instance

theorem find?_min_of_pairwise {α : Type} {r : α → α → Prop} {p : α → Bool}
    (hrefl : ∀ x, r x x) :
    ∀ {l : List α} {m : α}, l.Pairwise r → l.find? p = some m →
      m ∈ l ∧ p m = true ∧ ∀ y ∈ l, p y = true → r m y := by
  intro l
  induction l with
  | nil =>
    intro m _ hfind
    cases hfind
  | cons a rest ih =>
    intro m hp hfind
    obtain ⟨hhead, htail⟩ := List.pairwise_cons.mp hp
    rw [List.find?_cons] at hfind
    cases hpa : p a with
    | true =>
      rw [hpa] at hfind
      simp only [cond] at hfind
      injection hfind with hm
      subst hm
      refine ⟨List.mem_cons_self _ _, hpa, ?_⟩
      intro y hy _
      rcases List.mem_cons.mp hy with rfl | hy'
      · exact hrefl _
      · exact hhead y hy'
    | false =>
      rw [hpa] at hfind
      simp only [cond] at hfind
      obtain ⟨hmem, hpm, hmin⟩ := ih htail hfind
      refine ⟨List.mem_cons_of_mem _ hmem, hpm, ?_⟩
      intro y hy hpy
      rcases List.mem_cons.mp hy with rfl | hy'
      · rw [hpa] at hpy
        cases hpy
      · exact hmin y hy' hpy

theorem groupByKey_mem_content {β : Type} {pairs : List (String × β)} {k : String}
    {vs : List β} (h : (k, vs) ∈ groupByKey pairs) :
    vs = (pairs.filter (fun p => p.1 = k)).map Prod.snd := by
  unfold groupByKey at h
  obtain ⟨k', _, heq⟩ := List.mem_map.mp h
  have hk : k' = k := congrArg Prod.fst heq
  have hv := congrArg Prod.snd heq
  simp only at hv
  rw [← hv, hk]

theorem bestTripFold_mem (cands : List CandStop) (userTime : String) :
    ∀ (dests : List (String × List MatchT)) (acc : Option MatchT × ℚ) (m : MatchT),
      (dests.foldl (bestTripStep cands userTime) acc).1 = some m →
      acc.1 = some m ∨ ∃ g ∈ dests, nextTripOf userTime g.2 = some m := by
  intro dests
  induction dests with
  | nil =>
    intro acc m h
    exact Or.inl h
  | cons g rest ih =>
    intro acc m h
    rcases ih (bestTripStep cands userTime acc g) m h with hacc | ⟨g', hg', hnext⟩
    · unfold bestTripStep at hacc
      cases hnt : nextTripOf userTime g.2 with
      | none =>
        rw [hnt] at hacc
        exact Or.inl hacc
      | some nextTrip =>
        rw [hnt] at hacc
        cases hacc1 : acc.1 with
        | none =>
          rw [hacc1] at hacc
          simp only at hacc
          injection hacc with hm
          exact Or.inr ⟨g, List.mem_cons_self _ _, by rw [hnt, hm]⟩
        | some bestTrip =>
          rw [hacc1] at hacc
          simp only at hacc
          by_cases hc : ((cands.find? (fun s => s.stop_id = g.1)).map CandStop.distance).getD 0
                < acc.2 * (mkRat 8 10)
              ∨ (((cands.find? (fun s => s.stop_id = g.1)).map CandStop.distance).getD 0
                    < acc.2 * (mkRat 12 10)
                  ∧ strLt nextTrip.departure_time bestTrip.departure_time = true)
          · rw [if_pos hc] at hacc
            injection hacc with hm
            exact Or.inr ⟨g, List.mem_cons_self _ _, by rw [hnt, hm]⟩
          · rw [if_neg hc] at hacc
            rw [← hacc1]
            exact Or.inl hacc
    · exact Or.inr ⟨g', List.mem_cons_of_mem _ hg', hnext⟩

theorem directMatches_sound {pd : Preloaded} {ts : List (String × List (String × RowInfo))}
    {stopA : String} {cands : List CandStop} {d : String} {mt : MatchT}
    (h : (d, mt) ∈ directMatches pd ts stopA cands) :
    ∃ g ∈ ts, ∃ a ∈ (lookupStop g.2 stopA).toList, ∃ c ∈ cands, c.stop_id = d
      ∧ ∃ b ∈ (lookupStop g.2 d).toList, a.seq < b.seq
      ∧ mt = ⟨g.1, a.dep, b.arr, (tripInfoOf pd g.1).route_id,
          (tripInfoOf pd g.1).trip_headsign, d⟩ := by
  unfold directMatches at h
  rw [List.mem_flatMap] at h
  obtain ⟨g, hg, hmem⟩ := h
  cases ha : lookupStop g.2 stopA with
  | none =>
    rw [ha] at hmem
    cases hmem
  | some a =>
    rw [ha] at hmem
    rw [List.mem_filterMap] at hmem
    obtain ⟨c, hc, hcm⟩ := hmem
    cases hb : lookupStop g.2 c.stop_id with
    | none =>
      rw [hb] at hcm
      cases hcm
    | some b =>
      rw [hb] at hcm
      dsimp only at hcm
      by_cases hseq : a.seq < b.seq
      · rw [if_pos hseq] at hcm
        injection hcm with hpair
        have hd : c.stop_id = d := congrArg Prod.fst hpair
        have hmt := congrArg Prod.snd hpair
        simp only at hmt
        rw [hd] at hmt
        refine ⟨g, hg, a, by simp [ha], c, hc, hd, b, ?_, hseq, hmt.symm⟩
        rw [← hd]
        simp [hb]
      · rw [if_neg hseq] at hcm
        cases hcm

theorem directMatches_complete {pd : Preloaded} {ts : List (String × List (String × RowInfo))}
    {stopA : String} {cands : List CandStop} {g : String × List (String × RowInfo)}
    (hg : g ∈ ts) {a : RowInfo} (ha : lookupStop g.2 stopA = some a) {c : CandStop}
    (hc : c ∈ cands) {b : RowInfo} (hb : lookupStop g.2 c.stop_id = some b)
    (hseq : a.seq < b.seq) :
    (c.stop_id, (⟨g.1, a.dep, b.arr, (tripInfoOf pd g.1).route_id,
      (tripInfoOf pd g.1).trip_headsign, c.stop_id⟩ : MatchT))
      ∈ directMatches pd ts stopA cands := by
  unfold directMatches
  rw [List.mem_flatMap]
  refine ⟨g, hg, ?_⟩
  rw [ha, List.mem_filterMap]
  refine ⟨c, hc, ?_⟩
  rw [hb]
  dsimp only
  rw [if_pos hseq]

/-- C1 as amended: whatever `findBestDirectTrip` returns is an eligible leg,
and among eligible legs to its own target stop it has the earliest departure
after `userTime` (none departs strictly earlier). The cross-target selection
follows the banded rule of the code (`< 0.8 ×` incumbent distance, or
`< 1.2 ×` with strictly earlier departure), not the strict lexicographic
minimum of the claim. -/
theorem findBestDirectTrip_eligible_and_dest_earliest (stopA userTime : String)
    (candidateStops : List CandStop) (pd : Preloaded) (m : MatchT)
    (h : findBestDirectTrip stopA candidateStops userTime pd = some m) :
    EligibleLeg (tripStopsC1 pd.stopTimeRows pd.validTripIds stopA
        (candidateStops.map CandStop.stop_id)) stopA userTime candidateStops
      m.trip_id m.stopB m.departure_time
    ∧ (∀ tId dep, EligibleLeg (tripStopsC1 pd.stopTimeRows pd.validTripIds stopA
          (candidateStops.map CandStop.stop_id)) stopA userTime candidateStops
        tId m.stopB dep → strLt dep m.departure_time = false) := by
  unfold findBestDirectTrip at h
  by_cases hvalid : pd.validTripIds = []
  · rw [if_pos hvalid] at h
    cases h
  rw [if_neg hvalid] at h
  rcases bestTripFold_mem candidateStops userTime _ _ m h with hacc | ⟨g, hg, hnext⟩
  · cases hacc
  obtain ⟨hmemSorted, hpm, hmin⟩ :=
    find?_min_of_pairwise depLe_refl (List.sorted_insertionSort depLe g.2) hnext
  have hmemMatches : m ∈ g.2 := (List.mem_insertionSort depLe).mp hmemSorted
  have hcontent := groupByKey_mem_content hg
  rw [hcontent] at hmemMatches
  obtain ⟨p, hpfilter, hpsnd⟩ := List.mem_map.mp hmemMatches
  have hpmem := List.mem_of_mem_filter hpfilter
  have hpkey : p.1 = g.1 := by
    have := List.of_mem_filter hpfilter
    simpa using this
  have hpair : (g.1, m) ∈ directMatches pd
      (tripStopsC1 pd.stopTimeRows pd.validTripIds stopA (candidateStops.map CandStop.stop_id))
      stopA candidateStops := by
    have : p = (g.1, m) := Prod.ext hpkey hpsnd
    rw [← this]
    exact hpmem
  obtain ⟨g', hg', a, ha, c, hc, hd, b, hb, hseq, hmt⟩ := directMatches_sound hpair
  have hstopB : m.stopB = g.1 := by rw [hmt]
  have htrip : m.trip_id = g'.1 := by rw [hmt]
  have hdep : m.departure_time = a.dep := by rw [hmt]
  constructor
  · refine ⟨g', hg', htrip.symm, ⟨c, hc, by rw [hd, ← hstopB]⟩, a, ha, b, ?_, hdep.symm, hseq, ?_⟩
    · rw [hstopB]
      exact hb
    · exact hpm
  · intro tId dep helig
    obtain ⟨g2, hg2, _, ⟨c2, hc2, hcd2⟩, a2, ha2, b2, hb2, hdep2, hseq2, hafter2⟩ := helig
    have hb2' : lookupStop g2.2 c2.stop_id = some b2 := by
      rw [hcd2]
      exact Option.mem_def.mp (Option.mem_toList.mp hb2)
    have hpair2 : (c2.stop_id, (⟨g2.1, a2.dep, b2.arr, (tripInfoOf pd g2.1).route_id,
        (tripInfoOf pd g2.1).trip_headsign, c2.stop_id⟩ : MatchT))
        ∈ directMatches pd (tripStopsC1 pd.stopTimeRows pd.validTripIds stopA
          (candidateStops.map CandStop.stop_id)) stopA candidateStops :=
      directMatches_complete hg2
        (Option.mem_def.mp (Option.mem_toList.mp ha2)) hc2 hb2' hseq2
    have hmt2mem : (⟨g2.1, a2.dep, b2.arr, (tripInfoOf pd g2.1).route_id,
        (tripInfoOf pd g2.1).trip_headsign, c2.stop_id⟩ : MatchT) ∈ g.2 := by
      rw [hcontent]
      refine List.mem_map.mpr ⟨(c2.stop_id, _), ?_, rfl⟩
      refine List.mem_filter.mpr ⟨hpair2, ?_⟩
      simp [hcd2, ← hstopB]
    have hmt2sorted := (List.mem_insertionSort depLe).mpr hmt2mem
    have hple := hmin _ hmt2sorted (by
      show strLt userTime a2.dep = true
      rw [hdep2]
      exact hafter2)
    have : strLt a2.dep m.departure_time = false := hple
    rw [← hdep2]
    exact this

/-- The feed of the C1 statements: trip `T1` runs the source `A` to `B1`
(1 km from the destination) departing `08:00:00`; trip `T2` runs `A` to `B2`
(0.9 km) departing `09:00:00`. -/
def pdC1 : Preloaded :=
  ⟨["T1", "T2"], [⟨"T1", "R1", "H1"⟩, ⟨"T2", "R2", "H2"⟩],
   [⟨"T1", "A", 1, "08:00:00", "08:00:00"⟩, ⟨"T1", "B1", 2, "08:30:00", "08:30:00"⟩,
    ⟨"T2", "A", 1, "09:00:00", "09:00:00"⟩, ⟨"T2", "B2", 2, "09:40:00", "09:40:00"⟩]⟩

/-- C1 counterexample: the finder returns the leg to `B1` at distance 1 km,
although the leg to `B2` is eligible with strictly smaller distance 0.9 km —
0.9 is not below the accept band `0.8 × 1`, so the incumbent survives. Under
the claimed strict lexicographic order the `B2` leg would have to win, so the
returned leg is not the lexicographic minimum. -/
theorem findBestDirectTrip_not_lex_min :
    findBestDirectTrip "A" [⟨"B1", 1⟩, ⟨"B2", mkRat 9 10⟩] "07:00:00" pdC1
      = some ⟨"T1", "08:00:00", "08:30:00", "R1", "H1", "B1"⟩
    ∧ EligibleLeg (tripStopsC1 pdC1.stopTimeRows pdC1.validTripIds "A"
        ([⟨"B1", 1⟩, ⟨"B2", mkRat 9 10⟩].map CandStop.stop_id))
        "A" "07:00:00" [⟨"B1", 1⟩, ⟨"B2", mkRat 9 10⟩] "T2" "B2" "09:00:00"
    ∧ mkRat 9 10 < (1 : ℚ)
    ∧ (mkRat 9 10 : ℚ) ≠ 1 := by
  refine ⟨?_, by decide, by decide, by decide⟩
  with_unfolding_all rfl

/-- Witness for C1's amended theorem on a single-candidate feed. -/
theorem findBestDirectTrip_eligible_and_dest_earliest_witness :
    (findBestDirectTrip "A" [⟨"B1", 1⟩] "07:00:00" pdC1
        = some ⟨"T1", "08:00:00", "08:30:00", "R1", "H1", "B1"⟩)
    ∧ (EligibleLeg (tripStopsC1 pdC1.stopTimeRows pdC1.validTripIds "A"
          ([(⟨"B1", 1⟩ : CandStop)].map CandStop.stop_id)) "A" "07:00:00" [⟨"B1", 1⟩]
        (⟨"T1", "08:00:00", "08:30:00", "R1", "H1", "B1"⟩ : MatchT).trip_id
        (⟨"T1", "08:00:00", "08:30:00", "R1", "H1", "B1"⟩ : MatchT).stopB
        (⟨"T1", "08:00:00", "08:30:00", "R1", "H1", "B1"⟩ : MatchT).departure_time
      ∧ (∀ tId dep, EligibleLeg (tripStopsC1 pdC1.stopTimeRows pdC1.validTripIds "A"
            ([(⟨"B1", 1⟩ : CandStop)].map CandStop.stop_id)) "A" "07:00:00" [⟨"B1", 1⟩]
          tId (⟨"T1", "08:00:00", "08:30:00", "R1", "H1", "B1"⟩ : MatchT).stopB dep →
          strLt dep (⟨"T1", "08:00:00", "08:30:00", "R1", "H1", "B1"⟩ : MatchT).departure_time
            = false)) :=
  ⟨by decide,
    findBestDirectTrip_eligible_and_dest_earliest "A" "07:00:00" [⟨"B1", 1⟩] pdC1
      ⟨"T1", "08:00:00", "08:30:00", "R1", "H1", "B1"⟩ (by decide)⟩

/-- C5 at its failing input: a journey returned by the search whose two legs
are on different trips with a transfer wait of a single minute of the day.
The arrival `23:58:00` plus the 5-minute buffer wraps (`% 24`) to `00:03:00`,
so the `23:59:00` departure passes the buffer comparison and the claimed
5-minute transfer invariant is violated. -/
theorem bfsSearch1_transfer_buffer_midnight_wrap :
    bfsSearch1 "S1" ["S3"] [⟨"S3", mkRat 1 10⟩] "22:00:00" 2
        ⟨["T1", "T2"], [⟨"T1", "R1", "H1"⟩, ⟨"T2", "R2", "H2"⟩],
         [⟨"T1", "S1", 1, "23:00:00", "23:00:00"⟩, ⟨"T1", "S2", 2, "23:58:00", "23:58:00"⟩,
          ⟨"T2", "S2", 1, "23:59:00", "23:59:00"⟩, ⟨"T2", "S3", 2, "00:30:00", "00:30:00"⟩]⟩
      = some ⟨[⟨"S1", "S2", "23:00:00", "23:58:00", "T1", "R1", "H1"⟩,
               ⟨"S2", "S3", "23:59:00", "00:30:00", "T2", "R2", "H2"⟩],
              "S3", "00:30:00", 1, ((mkRat 1 10 : ℚ) : WithTop ℚ)⟩
    ∧ ("T1" : String) ≠ "T2"
    ∧ timeDifferenceMinutes "23:58:00" "23:59:00" = 1
    ∧ ¬ (5 : ℤ) ≤ timeDifferenceMinutes "23:58:00" "23:59:00"
    ∧ addMinutesToTime "23:58:00" 5 = "00:03:00" := by
  refine ⟨by decide, by decide, by decide, by decide, by decide⟩
